import Mathlib

/-!
Verification of the layout engine of `collage-maker` (`src/main.py`).

The whole layout engine is the function `calculate_layout(rule, img_objects,
margin_spacing)`.  We embed it shallowly:

* Python image handles (`PIL.Image`) are modelled by `Img`, which records the
  handle's current size; `Image.resize` returns a fresh handle, modelled by the
  distinguished constructor `Img.resized`.
* Python float arithmetic on the column widths is modelled by exact rational
  arithmetic (`ℚ`), matching the spec's "real division" idealization.
* Python exceptions are modelled by `Except PyErr`; the variants correspond to
  the exceptions the function can actually raise (`ValueError` for an invalid
  rule type, `IndexError` for list indexing, `ZeroDivisionError`).
* The in-place mutation of `img_objects` in the dict branch is modelled by
  state passing: the final image list is returned as the last component of the
  result.  (On an error Python leaves a partially mutated list behind; the
  embedding returns no list in that case, and no claim inspects it.)
* `row`, `col`, `span`, `columns` and `margin_spacing` are embedded as `Nat`.
  All claims quantify over rules in the documented format (fields ≥ 1,
  non-negative spacing), where `Nat` subtraction agrees with Python's integer
  arithmetic; Python's negative-index wrap-around is therefore never exercised.
-/

/-- Exceptions that `calculate_layout` can raise. -/
inductive PyErr where
  | valueError
  | indexError
  | zeroDivision
deriving DecidableEq

/-- An image handle together with its current size.  `orig w h` is a handle as
produced by `Image.open`; `resized w h` is a fresh handle returned by
`Image.resize`. -/
inductive Img where
  | orig : Nat → Nat → Img
  | resized : Nat → Nat → Img
deriving DecidableEq

/-- Python `img.size`. -/
def Img.size : Img → Nat × Nat
  | .orig w h => (w, h)
  | .resized w h => (w, h)

/-- One entry of `rule["layout"]["images"]`: `{"row": r, "col": c, "span": s}`,
with the `config.get("span", 1)` default already applied. -/
structure Config where
  row : Nat
  col : Nat
  span : Nat
deriving DecidableEq

/-- The dictionary form of a rule: `rule["layout"]["rows"]`,
`rule["layout"]["columns"]`, `rule["layout"]["images"]`. -/
structure ExplicitRule where
  rows : Nat
  cols : Nat
  configs : List Config
deriving DecidableEq

/-- The dynamic type of the `rule` argument: a dict, an int, or anything else
(the `else: raise ValueError` branch). -/
inductive Rule where
  | dict : ExplicitRule → Rule
  | int : Nat → Rule
  | other : Rule

/-- Python `int(q)`: truncation toward zero. -/
def pyInt (q : ℚ) : ℤ :=
  if 0 ≤ q then ⌊q⌋ else -⌊-q⌋

/-- Python `int(q)` for the non-negative quantities appearing in the layout
computation, as a `Nat`. -/
def pyIntNat (q : ℚ) : Nat :=
  (pyInt q).toNat

/-- Python `l[i]` for a non-negative index: `IndexError` when out of range. -/
def listGet (l : List α) (i : Nat) : Except PyErr α :=
  if h : i < l.length then .ok l[i] else .error .indexError

/-- Python `[l[c] for c in range(a, a+n)]` where each `l[c]` may raise
`IndexError`; indices are visited in ascending order, as the comprehension
does. -/
def listGetRange (l : List ℚ) : Nat → Nat → Except PyErr (List ℚ)
  | _, 0 => .ok []
  | a, n + 1 =>
    match listGet l a with
    | .error e => .error e
    | .ok v =>
      match listGetRange l (a + 1) n with
      | .error e => .error e
      | .ok rest => .ok (v :: rest)

/-- Python slice assignment `l[a : a+len(vals)] = vals` (for non-negative
bounds this is `l[:a] + vals + l[a+len(vals):]`). -/
def sliceAssign (l : List ℚ) (a : Nat) (vals : List ℚ) : List ℚ :=
  l.take a ++ vals ++ l.drop (a + vals.length)

/-- Python slice read `l[a:b]` for non-negative bounds (clamping, no error). -/
def pySlice (l : List ℚ) (a b : Nat) : List ℚ :=
  (l.take b).drop a

/-- Python `l[i] = f(l[i])`: `IndexError` when out of range. -/
def listUpd (l : List α) (i : Nat) (f : α → α) : Except PyErr (List α) :=
  if h : i < l.length then .ok (l.set i (f l[i])) else .error .indexError

/-- Python `l[i] = v`: `IndexError` when out of range. -/
def listSetV (l : List α) (i : Nat) (v : α) : Except PyErr (List α) :=
  if i < l.length then .ok (l.set i v) else .error .indexError

/-- Python `configs.index(config)`: index of the first equal element.  (Python
raises `ValueError` when the element is absent; at both call sites the element
is a member of the list, so the out-of-list value is irrelevant.) -/
def pyIndex (l : List Config) (c : Config) : Nat :=
  match l with
  | [] => 0
  | c' :: rest => if c' = c then 0 else pyIndex rest c + 1

/-- One iteration of the first `for config in configs` loop of the dict branch
of `calculate_layout` (lines 52-61 of `src/main.py`): state is
`(col_widths, row_heights)`. -/
def pass1Step (imgs : List Img) (configs : List Config) (S : Nat)
    (st : List ℚ × List Nat) (cfg : Config) : Except PyErr (List ℚ × List Nat) :=
  let row := cfg.row - 1
  let col := cfg.col - 1
  match listGet imgs (pyIndex configs cfg) with
  | .error e => .error e
  | .ok img =>
    let w := img.size.1
    let h := img.size.2
    if cfg.span = 0 then .error .zeroDivision else
    let scaled_w : ℚ := ((w : ℚ) + (((cfg.span - 1) * S : Nat) : ℚ)) / (cfg.span : ℚ)
    match listGetRange st.1 col cfg.span with
    | .error e => .error e
    | .ok vals =>
      let cw' := sliceAssign st.1 col (vals.map (fun v => max v scaled_w))
      match listUpd st.2 row (fun old => max old h) with
      | .error e => .error e
      | .ok rh' => .ok (cw', rh')

/-- The first `for config in configs` loop, by recursion on the remaining
configs. -/
def pass1 (imgs : List Img) (configs : List Config) (S : Nat) :
    List Config → List ℚ × List Nat → Except PyErr (List ℚ × List Nat)
  | [], st => .ok st
  | c :: rest, st =>
    match pass1Step imgs configs S st c with
    | .ok st' => pass1 imgs configs S rest st'
    | .error e => .error e

/-- One iteration of the second `for config in configs` loop (lines 64-79 of
`src/main.py`): state is `(img_objects, row_heights)`; `col_widths` is fixed. -/
def pass2Step (configs : List Config) (S : Nat) (cw : List ℚ)
    (st : List Img × List Nat) (cfg : Config) : Except PyErr (List Img × List Nat) :=
  let row := cfg.row - 1
  let col := cfg.col - 1
  match listGet st.1 (pyIndex configs cfg) with
  | .error e => .error e
  | .ok img =>
    let w := img.size.1
    let h := img.size.2
    let total : ℚ := (pySlice cw col (col + cfg.span)).sum + (((cfg.span - 1) * S : Nat) : ℚ)
    if w = 0 then .error .zeroDivision else
    let scale : ℚ := total / (w : ℚ)
    let new_w := pyIntNat ((w : ℚ) * scale)
    let new_h := pyIntNat ((h : ℚ) * scale)
    match listSetV st.1 (pyIndex configs cfg) (Img.resized new_w new_h) with
    | .error e => .error e
    | .ok imgs' =>
      match listUpd st.2 row (fun old => max old new_h) with
      | .error e => .error e
      | .ok rh' => .ok (imgs', rh')

/-- The second `for config in configs` loop, by recursion on the remaining
configs. -/
def pass2 (configs : List Config) (S : Nat) (cw : List ℚ) :
    List Config → List Img × List Nat → Except PyErr (List Img × List Nat)
  | [], st => .ok st
  | c :: rest, st =>
    match pass2Step configs S cw st c with
    | .ok st' => pass2 configs S cw rest st'
    | .error e => .error e

/-- Python `any(config["row"]-1 == row_i and config["col"]-1 == col_i ...)`:
whether some config claims the cell.  The appended position does not depend on
which config matches, so the `break` after the first match is immaterial for
the emitted list. -/
def cellClaimed (configs : List Config) (row_i col_i : Nat) : Bool :=
  configs.any (fun c => c.row - 1 == row_i && c.col - 1 == col_i)

/-- The inner `for col_i, col_w in enumerate(col_widths)` loop of the position
generation (lines 88-93 of `src/main.py`), carrying the running `x` and the
column index. -/
def scanCols (configs : List Config) (S : Nat) (row_i : Nat) (y : Nat) :
    Nat → Nat → List ℚ → List (Nat × Nat)
  | _, _, [] => []
  | x, c, w :: ws =>
    (if cellClaimed configs row_i c then [(x, y)] else []) ++
      scanCols configs S row_i y (x + pyIntNat (w + (S : ℚ))) (c + 1) ws

/-- The outer `for row_i, row_h in enumerate(row_heights)` loop of the position
generation (lines 85-94 of `src/main.py`), carrying the running `y` and the row
index.  `int(row_h + margin_spacing)` is the identity on integers. -/
def scanRows (configs : List Config) (S : Nat) (cw : List ℚ) :
    Nat → Nat → List Nat → List (Nat × Nat)
  | _, _, [] => []
  | y, r, h :: hs =>
    scanCols configs S r y S 0 cw ++ scanRows configs S cw (y + (h + S)) (r + 1) hs

/-- The dict branch of `calculate_layout` (lines 45-94 of `src/main.py`). -/
def explicitLayout (r : ExplicitRule) (imgs : List Img) (S : Nat) :
    Except PyErr (List (Nat × Nat) × Nat × Nat × List Img) :=
  match pass1 imgs r.configs S r.configs (List.replicate r.cols 0, List.replicate r.rows 0) with
  | .error e => .error e
  | .ok st1 =>
    match pass2 r.configs S st1.1 r.configs (imgs, st1.2) with
    | .error e => .error e
    | .ok st2 =>
      let collage_w := pyIntNat (st1.1.sum + (((r.cols + 1) * S : Nat) : ℚ))
      let collage_h := st2.2.sum + (r.rows + 1) * S
      let layout := scanRows r.configs S st1.1 S 0 st2.2
      .ok (layout, collage_w, collage_h, st2.1)

/-- The int branch of `calculate_layout` (lines 96-118 of `src/main.py`).
`sum(...) // len(img_sizes)` raises `ZeroDivisionError` on an empty list;
`math.ceil(n / c)` equals `(n + c - 1) / c` in integer arithmetic for `c > 0`. -/
def gridLayout (columns : Nat) (imgs : List Img) (S : Nat) :
    Except PyErr (List (Nat × Nat) × Nat × Nat × List Img) :=
  if imgs.length = 0 then .error .zeroDivision else
  let avg_width := (imgs.map (fun i => i.size.1)).sum / imgs.length
  let avg_height := (imgs.map (fun i => i.size.2)).sum / imgs.length
  let rows := if columns = 0 then 1 else (imgs.length + columns - 1) / columns
  let cols := if columns = 0 then imgs.length else columns
  let collage_w := cols * avg_width + (cols - 1) * S + 2 * S
  let collage_h := rows * avg_height + (rows - 1) * S + 2 * S
  let layout := (List.range rows).flatMap (fun row =>
    (List.range cols).map (fun col =>
      (S + col * (avg_width + S), S + row * (avg_height + S))))
  .ok (layout, collage_w, collage_h, imgs)

/-- The function `calculate_layout` of `src/main.py`.  The returned quadruple is
`(layout, collage_w, collage_h, img_objects)`, the last component being the
(possibly mutated) image list. -/
def calculate_layout (rule : Rule) (img_objects : List Img) (margin_spacing : Nat) :
    Except PyErr (List (Nat × Nat) × Nat × Nat × List Img) :=
  match rule with
  | .dict r => explicitLayout r img_objects margin_spacing
  | .int c => gridLayout c img_objects margin_spacing
  | .other => .error .valueError

/-! ### Generic facts about the grid-mode product list -/

theorem flatMapGrid_length {α : Type} (f : Nat → Nat → α) (rows cols : Nat) :
    ((List.range rows).flatMap (fun r => (List.range cols).map (f r))).length
      = rows * cols := by
  induction rows with
  | zero => simp
  | succ n ih =>
    rw [List.range_succ, List.flatMap_append, List.length_append, ih]
    simp [Nat.succ_mul]

theorem flatMapGrid_getElem? {α : Type} (f : Nat → Nat → α) (rows cols i : Nat)
    (hi : i < rows * cols) :
    ((List.range rows).flatMap (fun r => (List.range cols).map (f r)))[i]?
      = some (f (i / cols) (i % cols)) := by
  induction rows with
  | zero => omega
  | succ n ih =>
    have hcols : 0 < cols := by
      rcases Nat.eq_zero_or_pos cols with h0 | h0
      · subst h0; simp at hi
      · exact h0
    rw [List.range_succ, List.flatMap_append]
    have hi' : i < n * cols + cols := by rwa [Nat.succ_mul] at hi
    have hlen : ((List.range n).flatMap (fun r => (List.range cols).map (f r))).length = n * cols :=
      flatMapGrid_length f n cols
    by_cases hlt : i < n * cols
    · rw [List.getElem?_append_left (by rw [hlen]; exact hlt)]
      exact ih hlt
    · rw [List.getElem?_append_right (by rw [hlen]; omega)]
      have hj : i - n * cols < cols := by omega
      have hdiv : i / cols = n :=
        Nat.div_eq_of_lt_le (by omega) (by rwa [Nat.succ_mul])
      have hmod : i % cols = i - n * cols := by
        have h2 := Nat.div_add_mod i cols
        rw [hdiv, Nat.mul_comm] at h2
        omega
      simp only [List.flatMap_cons, List.flatMap_nil, List.append_nil, hlen]
      rw [List.getElem?_map, List.getElem?_range hj, hdiv, hmod]
      rfl

theorem flatMapGrid_getD {α : Type} (f : Nat → Nat → α) (rows cols i : Nat) (d : α)
    (hi : i < rows * cols) :
    ((List.range rows).flatMap (fun r => (List.range cols).map (f r))).getD i d
      = f (i / cols) (i % cols) := by
  rw [List.getD_eq_getElem?_getD, flatMapGrid_getElem? f rows cols i hi]
  rfl

/-- With a positive column count, ceiling division covers all images:
`n ≤ ((n + c - 1) / c) * c`. -/
theorem le_ceilDiv_mul (n c : Nat) (hc : 0 < c) : n ≤ ((n + c - 1) / c) * c := by
  rw [Nat.mul_comm]
  have hdm := Nat.div_add_mod (n + c - 1) c
  have hlt := Nat.mod_lt (n + c - 1) hc
  generalize hE : c * ((n + c - 1) / c) = E at *
  omega


/-! ### Grid-branch evaluation lemmas -/

theorem gridLayout_pos_eq (c : Nat) (imgs : List Img) (S : Nat)
    (hlen : imgs.length ≠ 0) (hc : c ≠ 0) :
    gridLayout c imgs S =
      .ok ((List.range ((imgs.length + c - 1) / c)).flatMap (fun row =>
            (List.range c).map (fun col =>
              (S + col * ((imgs.map (fun im => im.size.1)).sum / imgs.length + S),
               S + row * ((imgs.map (fun im => im.size.2)).sum / imgs.length + S)))),
        c * ((imgs.map (fun im => im.size.1)).sum / imgs.length) + (c - 1) * S + 2 * S,
        ((imgs.length + c - 1) / c) * ((imgs.map (fun im => im.size.2)).sum / imgs.length)
          + ((imgs.length + c - 1) / c - 1) * S + 2 * S,
        imgs) := by
  simp only [gridLayout, if_neg hlen, if_neg hc]

theorem gridLayout_zero_eq (imgs : List Img) (S : Nat) (hlen : imgs.length ≠ 0) :
    gridLayout 0 imgs S =
      .ok ((List.range 1).flatMap (fun row =>
            (List.range imgs.length).map (fun col =>
              (S + col * ((imgs.map (fun im => im.size.1)).sum / imgs.length + S),
               S + row * ((imgs.map (fun im => im.size.2)).sum / imgs.length + S)))),
        imgs.length * ((imgs.map (fun im => im.size.1)).sum / imgs.length)
          + (imgs.length - 1) * S + 2 * S,
        1 * ((imgs.map (fun im => im.size.2)).sum / imgs.length) + (1 - 1) * S + 2 * S,
        imgs) := by
  simp only [gridLayout, if_neg hlen, reduceIte]

/-! ### Claim C1: grid-mode placement and canvas formulas -/

/-- C1: in grid mode, for every non-empty image list, column count `C > 0` and
spacing `S ≥ 0`, image `i` is placed at
`x = S + (i mod C)*(cellWidth+S)`, `y = S + (i div C)*(cellHeight+S)`, where
`cellWidth`/`cellHeight` are the floor-averages of the input widths/heights,
and the canvas is `(C*cellWidth + (C-1)*S + 2*S, rows*cellHeight +
(rows-1)*S + 2*S)` with `rows = ceil(N/C)`. -/
theorem c1_grid_placements (imgs : List Img) (S C : Nat) (hne : imgs ≠ []) (hC : 0 < C) :
    ∃ L : List (Nat × Nat),
      calculate_layout (.int C) imgs S =
        .ok (L,
          C * ((imgs.map (fun im => im.size.1)).sum / imgs.length) + (C - 1) * S + 2 * S,
          ((imgs.length + C - 1) / C) * ((imgs.map (fun im => im.size.2)).sum / imgs.length)
            + ((imgs.length + C - 1) / C - 1) * S + 2 * S,
          imgs) ∧
      ∀ i < imgs.length,
        L.getD i (0, 0) =
          (S + (i % C) * ((imgs.map (fun im => im.size.1)).sum / imgs.length + S),
           S + (i / C) * ((imgs.map (fun im => im.size.2)).sum / imgs.length + S)) := by
  have hlen : imgs.length ≠ 0 := fun h => hne (List.length_eq_zero.mp h)
  have hC0 : C ≠ 0 := by omega
  refine ⟨_, gridLayout_pos_eq C imgs S hlen hC0, ?_⟩
  intro i hi
  have hi' : i < ((imgs.length + C - 1) / C) * C :=
    lt_of_lt_of_le hi (le_ceilDiv_mul imgs.length C hC)
  exact flatMapGrid_getD _ _ _ _ _ hi'

/-- Witness for C1 at the concrete scenario of the spec:
images (100,100), (200,100), (100,200), two columns, spacing 10. -/
theorem c1_grid_placements_witness :
    ∃ L : List (Nat × Nat),
      calculate_layout (.int 2) [Img.orig 100 100, Img.orig 200 100, Img.orig 100 200] 10 =
        .ok (L, 296, 296, [Img.orig 100 100, Img.orig 200 100, Img.orig 100 200]) ∧
      ∀ i < 3, L.getD i (0, 0) = (10 + (i % 2) * 143, 10 + (i / 2) * 143) :=
  c1_grid_placements [Img.orig 100 100, Img.orig 200 100, Img.orig 100 200] 10 2
    (by simp) (by omega)

/-! ### Claim C3: number of placements -/

/-- C3 counterexample: grid mode with 3 images and 2 columns produces 4
placements, not 3 — the layout list has one entry per grid cell
(`rows*cols` of them), not one per image. -/
theorem c3_counterexample :
    calculate_layout (.int 2) [Img.orig 10 10, Img.orig 10 10, Img.orig 10 10] 0 =
      .ok ([(0, 0), (10, 0), (0, 10), (10, 10)], 20, 20,
        [Img.orig 10 10, Img.orig 10 10, Img.orig 10 10]) ∧
    ([(0, 0), (10, 0), (0, 10), (10, 10)] : List (Nat × Nat)).length ≠
      ([Img.orig 10 10, Img.orig 10 10, Img.orig 10 10] : List Img).length := by
  constructor
  · rfl
  · decide

/-- C3 amended: grid mode with `columns = 0` yields exactly `N` placements in a
single row (all `y`-coordinates equal the spacing); grid mode with `C > 0`
yields exactly `ceil(N/C)*C` placements, which is at least `N` (and equals `N`
only when `C` divides `N`). -/
theorem c3_placement_counts :
    (∀ (imgs : List Img) (S : Nat), imgs ≠ [] →
      ∃ L W H, calculate_layout (.int 0) imgs S = .ok (L, W, H, imgs) ∧
        L.length = imgs.length ∧ ∀ p ∈ L, p.2 = S) ∧
    (∀ (imgs : List Img) (S C : Nat), imgs ≠ [] → 0 < C →
      ∃ L W H, calculate_layout (.int C) imgs S = .ok (L, W, H, imgs) ∧
        L.length = ((imgs.length + C - 1) / C) * C ∧ imgs.length ≤ L.length) := by
  constructor
  · intro imgs S hne
    have hlen : imgs.length ≠ 0 := fun h => hne (List.length_eq_zero.mp h)
    refine ⟨_, _, _, gridLayout_zero_eq imgs S hlen, ?_, ?_⟩
    · rw [flatMapGrid_length]; omega
    · intro p hp
      simp only [List.mem_flatMap, List.mem_map, List.mem_range] at hp
      obtain ⟨row, hrow, col, hcol, hp⟩ := hp
      have hr0 : row = 0 := by omega
      subst hr0
      simp [← hp]
  · intro imgs S C hne hC
    have hlen : imgs.length ≠ 0 := fun h => hne (List.length_eq_zero.mp h)
    have hC0 : C ≠ 0 := by omega
    refine ⟨_, _, _, gridLayout_pos_eq C imgs S hlen hC0, ?_, ?_⟩
    · rw [flatMapGrid_length]
    · rw [flatMapGrid_length]
      exact le_ceilDiv_mul imgs.length C hC

/-- Witness for C3's amended statement at one image, spacing 7, columns 0. -/
theorem c3_placement_counts_witness :
    ∃ L W H, calculate_layout (.int 0) [Img.orig 4 6] 7 = .ok (L, W, H, [Img.orig 4 6]) ∧
      L.length = 1 ∧ ∀ p ∈ L, p.2 = 7 :=
  c3_placement_counts.1 [Img.orig 4 6] 7 (by simp)

/-! ### Small helper lemmas about the embedded list primitives -/

theorem scanCols_nil_configs (S r y : Nat) :
    ∀ (x c : Nat) (ws : List ℚ), scanCols [] S r y x c ws = [] := by
  intro x c ws
  induction ws generalizing x c with
  | nil => rfl
  | cons w ws ih => simp [scanCols, cellClaimed, ih]

theorem scanRows_nil_configs (S : Nat) (cw : List ℚ) :
    ∀ (y r : Nat) (hs : List Nat), scanRows [] S cw y r hs = [] := by
  intro y r hs
  induction hs generalizing y r with
  | nil => rfl
  | cons h hs ih => simp [scanRows, scanCols_nil_configs, ih]

theorem listGetRange_error (l : List ℚ) :
    ∀ (n a : Nat), 0 < n → l.length < a + n →
      listGetRange l a n = .error .indexError := by
  intro n
  induction n with
  | zero => omega
  | succ m ih =>
    intro a _ hlen
    by_cases ha : a < l.length
    · have hm : 0 < m := by omega
      simp only [listGetRange, listGet, dif_pos ha, ih (a + 1) hm (by omega)]
    · simp only [listGetRange, listGet, dif_neg ha]

theorem listGetRange_ok_length (l : List ℚ) :
    ∀ (n a : Nat) (vals : List ℚ), listGetRange l a n = .ok vals → vals.length = n := by
  intro n
  induction n with
  | zero =>
    intro a vals h
    simp only [listGetRange] at h
    cases h
    rfl
  | succ m ih =>
    intro a vals h
    simp only [listGetRange, listGet] at h
    by_cases ha : a < l.length
    · rw [dif_pos ha] at h
      cases hrec : listGetRange l (a + 1) m with
      | error e => rw [hrec] at h; cases h
      | ok rest =>
        rw [hrec] at h
        cases h
        simp [ih (a + 1) rest hrec]
    · rw [dif_neg ha] at h
      cases h

theorem sliceAssign_length (l : List ℚ) (a : Nat) (vals : List ℚ)
    (h : a + vals.length ≤ l.length) :
    (sliceAssign l a vals).length = l.length := by
  simp only [sliceAssign, List.length_append, List.length_take, List.length_drop]
  omega

theorem pyIndex_lt_length (configs : List Config) (cfg : Config) (h : cfg ∈ configs) :
    pyIndex configs cfg < configs.length := by
  induction configs with
  | nil => cases h
  | cons c rest ih =>
    simp only [pyIndex]
    by_cases hc : c = cfg
    · simp [hc]
    · rw [if_neg hc]
      have hmem : cfg ∈ rest := by
        cases h with
        | head => exact absurd rfl hc
        | tail _ h' => exact h'
      simpa using ih hmem

theorem listGetRange_ok_of_le (l : List ℚ) :
    ∀ (n a : Nat), a + n ≤ l.length → ∃ vals, listGetRange l a n = .ok vals := by
  intro n
  induction n with
  | zero => intro a _; exact ⟨[], rfl⟩
  | succ m ih =>
    intro a h
    have ha : a < l.length := by omega
    obtain ⟨rest, hrest⟩ := ih (a + 1) (by omega)
    exact ⟨l[a] :: rest, by simp only [listGetRange, listGet, dif_pos ha, hrest]⟩

theorem listGetRange_error_eq (l : List ℚ) :
    ∀ (n a : Nat) (e : PyErr), listGetRange l a n = .error e → e = .indexError := by
  intro n
  induction n with
  | zero => intro a e h; cases h
  | succ m ih =>
    intro a e h
    simp only [listGetRange, listGet] at h
    by_cases ha : a < l.length
    · rw [dif_pos ha] at h
      cases hrec : listGetRange l (a + 1) m with
      | error e' =>
        rw [hrec] at h
        injection h with h2
        subst h2
        exact ih (a + 1) _ hrec
      | ok rest => rw [hrec] at h; cases h
    · rw [dif_neg ha] at h
      cases h
      rfl

theorem listUpd_error_eq {α : Type} (l : List α) (i : Nat) (f : α → α) (e : PyErr)
    (h : listUpd l i f = .error e) : e = .indexError := by
  simp only [listUpd] at h
  by_cases hi : i < l.length
  · rw [dif_pos hi] at h; cases h
  · rw [dif_neg hi] at h; cases h; rfl

/-- When a config's spanned column range exceeds the `col_widths` list, the
pass-1 step raises `IndexError` (from the `col_widths[c]` accesses). -/
theorem pass1Step_overflow (imgs : List Img) (allC : List Config) (S : Nat)
    (st : List ℚ × List Nat) (c : Config)
    (hidx : pyIndex allC c < imgs.length) (hspan : c.span ≠ 0)
    (hbad : st.1.length < c.col - 1 + c.span) :
    pass1Step imgs allC S st c = .error .indexError := by
  simp only [pass1Step, listGet, dif_pos hidx, if_neg hspan,
    listGetRange_error st.1 c.span (c.col - 1) (by omega) (by omega)]

/-- A failing pass-1 step can only fail with `IndexError` (given an in-range
image index and a positive span). -/
theorem pass1Step_error_eq (imgs : List Img) (allC : List Config) (S : Nat)
    (st : List ℚ × List Nat) (c : Config) (e : PyErr)
    (hidx : pyIndex allC c < imgs.length) (hspan : c.span ≠ 0)
    (h : pass1Step imgs allC S st c = .error e) : e = .indexError := by
  simp only [pass1Step, listGet, dif_pos hidx, if_neg hspan] at h
  cases hrange : listGetRange st.1 (c.col - 1) c.span with
  | error e' =>
    rw [hrange] at h
    cases h
    exact listGetRange_error_eq st.1 c.span (c.col - 1) e hrange
  | ok vals =>
    rw [hrange] at h
    cases hupd : listUpd st.2 (c.row - 1) (fun old => max old (imgs[pyIndex allC c]).size.2) with
    | error e' =>
      rw [hupd] at h
      cases h
      exact listUpd_error_eq _ _ _ _ hupd
    | ok rh' => rw [hupd] at h; cases h

/-- A successful pass-1 step preserves the length of `col_widths`. -/
theorem pass1Step_ok_fst_length (imgs : List Img) (allC : List Config) (S : Nat)
    (st : List ℚ × List Nat) (c : Config) (st' : List ℚ × List Nat)
    (hidx : pyIndex allC c < imgs.length) (hspan : c.span ≠ 0)
    (h : pass1Step imgs allC S st c = .ok st') :
    st'.1.length = st.1.length := by
  simp only [pass1Step, listGet, dif_pos hidx, if_neg hspan] at h
  cases hrange : listGetRange st.1 (c.col - 1) c.span with
  | error e' => rw [hrange] at h; cases h
  | ok vals =>
    rw [hrange] at h
    cases hupd : listUpd st.2 (c.row - 1) (fun old => max old (imgs[pyIndex allC c]).size.2) with
    | error e' => rw [hupd] at h; cases h
    | ok rh' =>
      rw [hupd] at h
      cases h
      by_cases hle : c.col - 1 + c.span ≤ st.1.length
      · have hvlen : vals.length = c.span := listGetRange_ok_length st.1 c.span (c.col - 1) vals hrange
        simp only [sliceAssign_length st.1 (c.col - 1) (vals.map (fun v => max v _))
          (by simpa [hvlen] using hle)]
      · have hcontra := listGetRange_error st.1 c.span (c.col - 1) (by omega) (by omega)
        rw [hrange] at hcontra
        cases hcontra

/-- Pass 1 fails with `IndexError` as soon as some config's column range
exceeds the declared column count. -/
theorem pass1_overflow (imgs : List Img) (allC : List Config) (S C : Nat) :
    ∀ (cs : List Config) (st : List ℚ × List Nat),
      st.1.length = C →
      (∀ cfg ∈ cs, 1 ≤ cfg.span ∧ pyIndex allC cfg < imgs.length) →
      (∃ cfg ∈ cs, C < cfg.col - 1 + cfg.span) →
      pass1 imgs allC S cs st = .error .indexError := by
  intro cs
  induction cs with
  | nil => intro st _ _ hbad; simp at hbad
  | cons c rest ih =>
    intro st hst hfields hbad
    obtain ⟨hspan, hidx⟩ := hfields c (List.mem_cons_self c rest)
    have hspan0 : c.span ≠ 0 := by omega
    cases hstep : pass1Step imgs allC S st c with
    | error e =>
      have he := pass1Step_error_eq imgs allC S st c e hidx hspan0 hstep
      subst he
      simp [pass1, hstep]
    | ok st' =>
      by_cases hbadc : C < c.col - 1 + c.span
      · exact absurd hstep (by
          rw [pass1Step_overflow imgs allC S st c hidx hspan0 (by omega)]
          simp)
      · obtain ⟨cfg, hcfgmem, hcfgbad⟩ := hbad
        have hcfgrest : cfg ∈ rest := by
          cases hcfgmem with
          | head => exact absurd hcfgbad (by omega)
          | tail _ h' => exact h'
        have hst' : st'.1.length = C := by
          rw [pass1Step_ok_fst_length imgs allC S st c st' hidx hspan0 hstep, hst]
        simp only [pass1, hstep]
        exact ih st' hst' (fun g hg => hfields g (List.mem_cons_of_mem c hg))
          ⟨cfg, hcfgrest, hcfgbad⟩

/-! ### Claim C9: span overflow -/

/-- C9 counterexample: with the documented 1-based `col`, a config whose
`col + span` exceeds the declared column count by one stays in range and no
error is raised: `cols = 2`, `col = 2`, `span = 1` has `col + span = 3 > 2`,
yet the layout succeeds (the code indexes columns `col-1 .. col-1+span-1`). -/
theorem c9_counterexample :
    calculate_layout (.dict ⟨1, 2, [⟨1, 2, 1⟩]⟩) [Img.orig 10 10] 0 =
      .ok ([(0, 0)], 10, 10, [Img.resized 10 10]) ∧ 2 + 1 > 2 := by
  constructor
  · simp [calculate_layout, explicitLayout, pass1, pass1Step, pass2, pass2Step,
      listGet, listGetRange, sliceAssign, pySlice, listUpd, listSetV, pyIndex,
      pyIntNat, pyInt, scanRows, scanCols, cellClaimed, Img.size]
  · decide

/-- C9 amended: whenever some config's zero-based column range exceeds the
declared column count — `(col-1) + span > columns`, i.e. `col + span >
columns + 1` with the 1-based `col` — the explicit calculator fails with
`IndexError` and returns no layout at all. -/
theorem c9_span_overflow (r : ExplicitRule) (imgs : List Img) (S : Nat)
    (hlen : r.configs.length = imgs.length)
    (hfields : ∀ cfg ∈ r.configs, 1 ≤ cfg.span)
    (hbad : ∃ cfg ∈ r.configs, r.cols < cfg.col - 1 + cfg.span) :
    calculate_layout (.dict r) imgs S = .error .indexError := by
  have hp := pass1_overflow imgs r.configs S r.cols r.configs
    (List.replicate r.cols 0, List.replicate r.rows 0)
    (by simp)
    (fun cfg hcfg => ⟨hfields cfg hcfg, by
      have := pyIndex_lt_length r.configs cfg hcfg
      omega⟩)
    hbad
  simp only [calculate_layout, explicitLayout, hp]

/-- Witness for C9's amended statement: one config spanning 2 columns in a
1-column rule. -/
theorem c9_span_overflow_witness :
    calculate_layout (.dict ⟨1, 1, [⟨1, 1, 2⟩]⟩) [Img.orig 5 5] 3 = .error .indexError :=
  c9_span_overflow ⟨1, 1, [⟨1, 1, 2⟩]⟩ [Img.orig 5 5] 3 (by decide) (by decide) (by decide)

/-! ### Claim C5: index alignment of configs and images -/

/-- C5: at two configs with identical content (`{row:1, col:1, span:1}` twice)
and images `(100,50)`, `(200,80)`, the code's `configs.index(config)` lookup
returns `0` for both configs, so both passes read image 0 and image 1 is never
measured nor resized: the column width stays 100 (not 200), the canvas is
`(100, 50)`, and the returned image list still contains the untouched original
handle of image 1.  The claim's prescription — config 1 sizes image 1 — fails. -/
theorem c5_duplicate_config_eval :
    calculate_layout (.dict ⟨1, 1, [⟨1, 1, 1⟩, ⟨1, 1, 1⟩]⟩)
        [Img.orig 100 50, Img.orig 200 80] 0 =
      .ok ([(0, 0)], 100, 50, [Img.resized 100 50, Img.orig 200 80]) ∧
    ([Img.resized 100 50, Img.orig 200 80] : List Img).getD 1 (Img.orig 0 0) =
      Img.orig 200 80 := by
  constructor
  · simp [calculate_layout, explicitLayout, pass1, pass1Step, pass2, pass2Step,
      listGet, listGetRange, sliceAssign, pySlice, listUpd, listSetV, pyIndex,
      pyIntNat, pyInt, scanRows, scanCols, cellClaimed, Img.size]
  · decide

/-! ### Claim C7: zero images -/

/-- C7 counterexample: with zero images neither calculator path raises a
distinguished empty-input error: the grid path fails with `ZeroDivisionError`
(from `sum(...) // len(img_sizes)`), and the explicit path with an empty
config list succeeds, returning an empty layout. -/
theorem c7_counterexample :
    calculate_layout (.int 2) [] 5 = .error .zeroDivision ∧
    calculate_layout (.dict ⟨3, 4, []⟩) [] 5 = .ok ([], 25, 20, []) := by
  constructor
  · rfl
  · simp [calculate_layout, explicitLayout, pass1, pass2, scanRows, scanCols,
      cellClaimed, pyIntNat, pyInt, List.replicate]

/-- C7 amended: with zero images the grid path always fails with
`ZeroDivisionError` (not an empty-input error), and the explicit path with an
empty config list always succeeds with an empty placement list. -/
theorem c7_zero_images :
    (∀ (c S : Nat), calculate_layout (.int c) [] S = .error .zeroDivision) ∧
    (∀ (rows cols S : Nat), ∃ W H,
      calculate_layout (.dict ⟨rows, cols, []⟩) [] S = .ok ([], W, H, [])) := by
  constructor
  · intro c S; rfl
  · intro rows cols S
    refine ⟨pyIntNat ((List.replicate cols (0 : ℚ)).sum + (((cols + 1) * S : Nat) : ℚ)),
      (List.replicate rows (0 : Nat)).sum + (rows + 1) * S, ?_⟩
    simp only [calculate_layout, explicitLayout, pass1, pass2, scanRows_nil_configs]

/-! ### Claim C8: rule validation -/

/-- C8 counterexample: an explicit rule whose `cellConfigs` length (1) differs
from the image count (2) is not rejected: the layout succeeds, with the extra
image left untouched. -/
theorem c8_counterexample :
    calculate_layout (.dict ⟨1, 1, [⟨1, 1, 1⟩]⟩) [Img.orig 10 10, Img.orig 20 20] 0 =
      .ok ([(0, 0)], 10, 10, [Img.resized 10 10, Img.orig 20 20]) ∧
    ([⟨1, 1, 1⟩] : List Config).length ≠
      ([Img.orig 10 10, Img.orig 20 20] : List Img).length := by
  constructor
  · simp [calculate_layout, explicitLayout, pass1, pass1Step, pass2, pass2Step,
      listGet, listGetRange, sliceAssign, pySlice, listUpd, listSetV, pyIndex,
      pyIntNat, pyInt, scanRows, scanCols, cellClaimed, Img.size]
  · decide

/-- C8 amended: a rule that is neither a dict nor an int always fails with the
`ValueError` of the `else` branch (the code's malformed-rule error), but a
`cellConfigs`/image-count mismatch is not validated: with fewer configs than
images the explicit path succeeds. -/
theorem c8_rule_validation :
    (∀ (imgs : List Img) (S : Nat), calculate_layout .other imgs S = .error .valueError) ∧
    (∃ (r : ExplicitRule) (imgs : List Img) (S : Nat),
      r.configs.length ≠ imgs.length ∧
      calculate_layout (.dict r) imgs S =
        .ok ([(0, 0)], 10, 10, [Img.resized 10 10, Img.orig 20 20])) := by
  constructor
  · intro imgs S; rfl
  · refine ⟨⟨1, 1, [⟨1, 1, 1⟩]⟩, [Img.orig 10 10, Img.orig 20 20], 0, by decide, ?_⟩
    simp [calculate_layout, explicitLayout, pass1, pass1Step, pass2, pass2Step,
      listGet, listGetRange, sliceAssign, pySlice, listUpd, listSetV, pyIndex,
      pyIntNat, pyInt, scanRows, scanCols, cellClaimed, Img.size]

/-! ### Spec-side description of the explicit calculator

The following definitions restate pass 1, pass 2 and the canvas formulas in
the spec's own terms: configs are paired with their images positionally
(`config[i]` describes `image[i]`), pass 1 maxes every spanned column with the
scaled width `(w + (span-1)*S)/span` and the config's row with the raw image
height, pass 2 rescales each image by `scale = (Σ colWidth over the span +
(span-1)*S)/w` with truncation toward zero, updating the row height with the
new height. -/

/-- Spec pass 1 scaled width: `(imageWidth + (span-1)*spacing) / span`, real
division. -/
def specScaledW (S : Nat) (cfg : Config) (w : Nat) : ℚ :=
  ((w : ℚ) + (((cfg.span - 1) * S : Nat) : ℚ)) / (cfg.span : ℚ)

/-- Spec pass 1 column update: every column index in
`[col-1, col-1+span)` becomes the max of its current value and the scaled
width; the other columns are unchanged. -/
def updCW (S : Nat) (cfg : Config) (w : Nat) (cw : List ℚ) : List ℚ :=
  cw.take (cfg.col - 1)
    ++ (List.range cfg.span).map (fun j => max (cw.getD (cfg.col - 1 + j) 0) (specScaledW S cfg w))
    ++ cw.drop (cfg.col - 1 + cfg.span)

/-- Spec row-height update: row `row-1` becomes the max of its current value
and `h`; the height is not divided across the span. -/
def updRH (cfg : Config) (h : Nat) (rh : List Nat) : List Nat :=
  rh.set (cfg.row - 1) (max (rh.getD (cfg.row - 1) 0) h)

/-- Spec pass 1 over index-aligned (config, size) pairs. -/
def specPass1 (S cols rows : Nat) (pairs : List (Config × (Nat × Nat))) :
    List ℚ × List Nat :=
  pairs.foldl (fun st p => (updCW S p.1 p.2.1 st.1, updRH p.1 p.2.2 st.2))
    (List.replicate cols 0, List.replicate rows 0)

/-- Spec pass 2 total: the full pixel width the image must occupy across its
spanned columns, including internal gaps. -/
def specTotal (S : Nat) (cw : List ℚ) (cfg : Config) : ℚ :=
  ((List.range cfg.span).map (fun j => cw.getD (cfg.col - 1 + j) 0)).sum
    + (((cfg.span - 1) * S : Nat) : ℚ)

/-- Spec pass 2 new size: `(trunc(w*scale), trunc(h*scale))` with
`scale = total/w`. -/
def specNewSize (S : Nat) (cw : List ℚ) (cfg : Config) (wh : Nat × Nat) : Nat × Nat :=
  (pyIntNat ((wh.1 : ℚ) * (specTotal S cw cfg / (wh.1 : ℚ))),
   pyIntNat ((wh.2 : ℚ) * (specTotal S cw cfg / (wh.1 : ℚ))))

/-- Spec pass 2 row-height reconciliation over index-aligned pairs. -/
def specPass2RH (S : Nat) (cw : List ℚ) (rh1 : List Nat)
    (pairs : List (Config × (Nat × Nat))) : List Nat :=
  pairs.foldl (fun acc p => updRH p.1 (specNewSize S cw p.1 p.2).2 acc) rh1

/-- The pass-1 column widths of a rule, per the spec. -/
def specCW (S : Nat) (r : ExplicitRule) (sizes : List (Nat × Nat)) : List ℚ :=
  (specPass1 S r.cols r.rows (r.configs.zip sizes)).1

/-- The pass-1 row heights of a rule, per the spec. -/
def specRH1 (S : Nat) (r : ExplicitRule) (sizes : List (Nat × Nat)) : List Nat :=
  (specPass1 S r.cols r.rows (r.configs.zip sizes)).2

/-- The final row heights of a rule, per the spec. -/
def specRH (S : Nat) (r : ExplicitRule) (sizes : List (Nat × Nat)) : List Nat :=
  specPass2RH S (specCW S r sizes) (specRH1 S r sizes) (r.configs.zip sizes)

/-- The rescaled image sizes of a rule, per the spec (index-aligned with the
input images). -/
def specSizes (S : Nat) (r : ExplicitRule) (sizes : List (Nat × Nat)) : List (Nat × Nat) :=
  (r.configs.zip sizes).map (fun p => specNewSize S (specCW S r sizes) p.1 p.2)

/-- A valid explicit rule for a given image list, per the spec's data model:
1-based fields, each config's span inside the declared grid, one config per
image, configs claiming pairwise distinct cells (multiple configs on one cell
are explicitly undefined in the spec), and positive image widths. -/
def ValidExplicit (r : ExplicitRule) (imgs : List Img) : Prop :=
  r.configs.length = imgs.length ∧
  (∀ cfg ∈ r.configs, 1 ≤ cfg.row ∧ cfg.row ≤ r.rows ∧ 1 ≤ cfg.col ∧ 1 ≤ cfg.span ∧
    cfg.col - 1 + cfg.span ≤ r.cols) ∧
  (r.configs.map (fun cfg => (cfg.row, cfg.col))).Nodup ∧
  (∀ im ∈ imgs, 0 < im.size.1)

/-! ### Pass-by-pass equivalence with the source -/

theorem pyIndex_nodup (configs : List Config) (hnd : configs.Nodup) :
    ∀ (i : Nat) (hi : i < configs.length), pyIndex configs configs[i] = i := by
  induction configs with
  | nil => intro i hi; simp at hi
  | cons c rest ih =>
    intro i hi
    cases i with
    | zero => simp [pyIndex]
    | succ j =>
      have hj : j < rest.length := by simpa using hi
      have hne : c ≠ rest[j] := by
        intro h
        have : c ∈ rest := h ▸ List.getElem_mem hj
        exact (List.nodup_cons.mp hnd).1 this
      simp only [List.getElem_cons_succ, pyIndex, if_neg hne]
      rw [ih (List.nodup_cons.mp hnd).2 j hj]

theorem updCW_length (S : Nat) (cfg : Config) (w : Nat) (cw : List ℚ)
    (hc : cfg.col - 1 + cfg.span ≤ cw.length) :
    (updCW S cfg w cw).length = cw.length := by
  simp only [updCW, List.length_append, List.length_take, List.length_map,
    List.length_range, List.length_drop]
  omega

theorem updRH_length (cfg : Config) (h : Nat) (rh : List Nat) :
    (updRH cfg h rh).length = rh.length := by
  simp [updRH]

theorem listGetRange_ok_eq (l : List ℚ) :
    ∀ (n a : Nat), a + n ≤ l.length →
      listGetRange l a n = .ok ((List.range n).map (fun j => l.getD (a + j) 0)) := by
  intro n
  induction n with
  | zero => intro a _; rfl
  | succ m ih =>
    intro a h
    have ha : a < l.length := by omega
    have hrec := ih (a + 1) (by omega)
    simp only [listGetRange, listGet, dif_pos ha, hrec]
    congr 1
    rw [List.range_succ_eq_map]
    simp only [List.map_cons, List.map_map]
    congr 1
    · rw [Nat.add_zero, List.getD_eq_getElem l 0 ha]
    · apply List.map_congr_left
      intro j _
      simp only [Function.comp_apply]
      congr 1
      omega

theorem listUpd_eq_updRH (rh : List Nat) (cfg : Config) (h : Nat)
    (hi : cfg.row - 1 < rh.length) :
    listUpd rh (cfg.row - 1) (fun old => max old h) = .ok (updRH cfg h rh) := by
  simp only [listUpd, dif_pos hi, updRH, List.getD_eq_getElem rh 0 hi]

theorem sliceAssign_eq_updCW (S : Nat) (cfg : Config) (w : Nat) (cw : List ℚ) :
    sliceAssign cw (cfg.col - 1)
        (((List.range cfg.span).map (fun j => cw.getD (cfg.col - 1 + j) 0)).map
          (fun v => max v (((w : ℚ) + (((cfg.span - 1) * S : Nat) : ℚ)) / (cfg.span : ℚ))))
      = updCW S cfg w cw := by
  simp [sliceAssign, updCW, specScaledW, List.map_map, Function.comp]

/-- The pass-1 step at the `k`-th config of a duplicate-free config list acts
exactly as the spec's updates on the `k`-th image. -/
theorem pass1Step_eq_upd (imgs : List Img) (configs : List Config) (S : Nat)
    (st : List ℚ × List Nat) (k : Nat) (hk : k < configs.length)
    (hnd : configs.Nodup) (hki : k < imgs.length)
    (hspan : configs[k].span ≠ 0)
    (hcol : configs[k].col - 1 + configs[k].span ≤ st.1.length)
    (hrow : configs[k].row - 1 < st.2.length) :
    pass1Step imgs configs S st configs[k] =
      .ok (updCW S configs[k] (imgs[k]).size.1 st.1,
           updRH configs[k] (imgs[k]).size.2 st.2) := by
  have hidx : pyIndex configs configs[k] = k := pyIndex_nodup configs hnd k hk
  simp only [pass1Step, listGet, hidx, dif_pos hki, if_neg hspan,
    listGetRange_ok_eq st.1 configs[k].span (configs[k].col - 1) hcol,
    listUpd_eq_updRH st.2 configs[k] (imgs[k]).size.2 hrow,
    sliceAssign_eq_updCW]

/-- Pass 1, started at position `k`, computes the spec's fold over the
remaining index-aligned (config, size) pairs. -/
theorem pass1_drop_eq (imgs : List Img) (configs : List Config) (S R C : Nat)
    (hnd : configs.Nodup) (hlen : configs.length = imgs.length)
    (hb : ∀ cfg ∈ configs, 1 ≤ cfg.span ∧ cfg.col - 1 + cfg.span ≤ C ∧ cfg.row - 1 < R) :
    ∀ (n k : Nat) (st : List ℚ × List Nat), k + n = configs.length →
      st.1.length = C → st.2.length = R →
      pass1 imgs configs S (configs.drop k) st =
        .ok (((configs.drop k).zip ((imgs.map Img.size).drop k)).foldl
          (fun st p => (updCW S p.1 p.2.1 st.1, updRH p.1 p.2.2 st.2)) st) := by
  intro n
  induction n with
  | zero =>
    intro k st hk h1 h2
    rw [List.drop_eq_nil_of_le (by omega)]
    rfl
  | succ m ih =>
    intro k st hk h1 h2
    have hkc : k < configs.length := by omega
    have hki : k < imgs.length := by omega
    have hks : k < (imgs.map Img.size).length := by simpa using hki
    obtain ⟨hsp, hc, hr⟩ := hb configs[k] (List.getElem_mem hkc)
    rw [List.drop_eq_getElem_cons hkc, List.drop_eq_getElem_cons hks, List.zip_cons_cons]
    have hstep := pass1Step_eq_upd imgs configs S st k hkc hnd hki (by omega) (by omega) (by omega)
    simp only [pass1, hstep, List.foldl_cons, List.getElem_map]
    have h1' : (updCW S configs[k] (imgs[k]).size.1 st.1).length = C := by
      rw [updCW_length S configs[k] (imgs[k]).size.1 st.1 (by omega), h1]
    have h2' : (updRH configs[k] (imgs[k]).size.2 st.2).length = R := by
      rw [updRH_length, h2]
    exact ih (k + 1) _ (by omega) h1' h2'

theorem pySlice_eq_map (cw : List ℚ) (a n : Nat) (h : a + n ≤ cw.length) :
    pySlice cw a (a + n) = (List.range n).map (fun j => cw.getD (a + j) 0) := by
  apply List.ext_getElem
  · simp only [pySlice, List.length_drop, List.length_take, List.length_map, List.length_range]
    omega
  · intro i h1 h2
    have hi : i < n := by simpa using h2
    have hcw : a + i < cw.length := by omega
    simp only [pySlice, List.getElem_drop, List.getElem_take, List.getElem_map,
      List.getElem_range, List.getD_eq_getElem cw 0 hcw]

/-- The pass-2 step at the `k`-th config of a duplicate-free config list
resizes the `k`-th image to the spec's new size and reconciles the row height. -/
theorem pass2Step_eq (configs : List Config) (S : Nat) (cw : List ℚ)
    (st : List Img × List Nat) (k : Nat) (hk : k < configs.length)
    (hnd : configs.Nodup) (hki : k < st.1.length)
    (hw : (st.1[k]).size.1 ≠ 0)
    (hcol : configs[k].col - 1 + configs[k].span ≤ cw.length)
    (hrow : configs[k].row - 1 < st.2.length) :
    pass2Step configs S cw st configs[k] =
      .ok (st.1.set k (Img.resized (specNewSize S cw configs[k] (st.1[k]).size).1
                                   (specNewSize S cw configs[k] (st.1[k]).size).2),
           updRH configs[k] (specNewSize S cw configs[k] (st.1[k]).size).2 st.2) := by
  have hidx : pyIndex configs configs[k] = k := pyIndex_nodup configs hnd k hk
  simp only [pass2Step, listGet, hidx, dif_pos hki, if_neg hw, listSetV, if_pos hki,
    listUpd_eq_updRH st.2 configs[k] _ hrow, specNewSize, specTotal,
    pySlice_eq_map cw (configs[k].col - 1) configs[k].span hcol]

/-- Pass 2, started at position `k` on an image list that still holds the
original images from position `k` on, resizes each remaining image to its
spec size and folds the spec's row-height reconciliation. -/
theorem pass2_drop_eq (imgs : List Img) (configs : List Config) (S : Nat)
    (cw : List ℚ) (R : Nat)
    (hnd : configs.Nodup) (hlen : configs.length = imgs.length)
    (hb : ∀ cfg ∈ configs, cfg.col - 1 + cfg.span ≤ cw.length ∧ cfg.row - 1 < R)
    (hwpos : ∀ im ∈ imgs, 0 < im.size.1) :
    ∀ (n k : Nat) (cur : List Img) (rh : List Nat) (hk : k + n = configs.length)
      (hcur : cur.length = imgs.length)
      (hagree : ∀ j : Nat, k ≤ j →
        cur.getD j (Img.orig 0 0) = imgs.getD j (Img.orig 0 0))
      (hrh : rh.length = R),
      pass2 configs S cw (configs.drop k) (cur, rh) =
        .ok (cur.take k ++ ((configs.drop k).zip ((imgs.map Img.size).drop k)).map
               (fun p => Img.resized (specNewSize S cw p.1 p.2).1 (specNewSize S cw p.1 p.2).2),
             ((configs.drop k).zip ((imgs.map Img.size).drop k)).foldl
               (fun acc p => updRH p.1 (specNewSize S cw p.1 p.2).2 acc) rh) := by
  intro n
  induction n with
  | zero =>
    intro k cur rh hk hcur hagree hrh
    rw [List.drop_eq_nil_of_le (by omega)]
    simp only [pass2, List.zip_nil_left, List.map_nil, List.foldl_nil, List.append_nil]
    rw [List.take_of_length_le (by omega)]
  | succ m ih =>
    intro k cur rh hk hcur hagree hrh
    have hkc : k < configs.length := by omega
    have hki : k < imgs.length := by omega
    have hkcur : k < cur.length := by omega
    have hks : k < (imgs.map Img.size).length := by simpa using hki
    obtain ⟨hc, hr⟩ := hb configs[k] (List.getElem_mem hkc)
    have hck : cur[k] = imgs[k] := by
      have h0 := hagree k (le_refl k)
      rwa [List.getD_eq_getElem cur _ hkcur, List.getD_eq_getElem imgs _ hki] at h0
    have hw : (cur[k]).size.1 ≠ 0 := by
      rw [hck]
      exact Nat.pos_iff_ne_zero.mp (hwpos imgs[k] (List.getElem_mem hki))
    rw [List.drop_eq_getElem_cons hkc, List.drop_eq_getElem_cons hks, List.zip_cons_cons]
    have hstep := pass2Step_eq configs S cw (cur, rh) k hkc hnd hkcur hw
      (by show configs[k].col - 1 + configs[k].span ≤ cw.length; omega)
      (by show configs[k].row - 1 < rh.length; omega)
    simp only [pass2, hstep, List.foldl_cons, List.map_cons, List.getElem_map]
    have hcur' : (cur.set k (Img.resized (specNewSize S cw configs[k] (cur[k]).size).1
        (specNewSize S cw configs[k] (cur[k]).size).2)).length = imgs.length := by
      rw [List.length_set, hcur]
    have hagree' : ∀ j : Nat, k + 1 ≤ j →
        (cur.set k (Img.resized (specNewSize S cw configs[k] (cur[k]).size).1
          (specNewSize S cw configs[k] (cur[k]).size).2)).getD j (Img.orig 0 0)
          = imgs.getD j (Img.orig 0 0) := by
      intro j hkj
      by_cases hj : j < cur.length
      · rw [List.getD_eq_getElem _ _ (by rw [List.length_set]; exact hj), List.getElem_set,
          if_neg (by omega), ← List.getD_eq_getElem cur _ hj]
        exact hagree j (by omega)
      · rw [List.getD_eq_default _ _ (by rw [List.length_set]; omega),
          List.getD_eq_default _ _ (by omega)]
    have hrh' : (updRH configs[k] (specNewSize S cw configs[k] (cur[k]).size).2 rh).length = R := by
      rw [updRH_length, hrh]
    have hrec := ih (k + 1) _ _ (by omega) hcur' hagree' hrh'
    rw [hrec, hck]
    congr 2
    rw [List.take_succ]
    have htake : (cur.set k (Img.resized (specNewSize S cw configs[k] (imgs[k]).size).1
        (specNewSize S cw configs[k] (imgs[k]).size).2)).take k = cur.take k := by
      rw [List.set_take, List.set_eq_of_length_le]
      simp only [List.length_take]
      omega
    rw [htake]
    rw [show (cur.set k (Img.resized (specNewSize S cw configs[k] (imgs[k]).size).1
        (specNewSize S cw configs[k] (imgs[k]).size).2))[k]?
      = some (Img.resized (specNewSize S cw configs[k] (imgs[k]).size).1
          (specNewSize S cw configs[k] (imgs[k]).size).2) from
        List.getElem?_set_self (by omega)]
    simp [List.append_assoc]

/-- The spec's pass-1 fold preserves the lengths of the two accumulator
lists when every config's span stays inside the declared columns. -/
theorem specPass1_fold_lengths (S cols rows : Nat) :
    ∀ (pairs : List (Config × (Nat × Nat))) (st : List ℚ × List Nat),
      st.1.length = cols → st.2.length = rows →
      (∀ p ∈ pairs, p.1.col - 1 + p.1.span ≤ cols) →
      (pairs.foldl (fun st p => (updCW S p.1 p.2.1 st.1, updRH p.1 p.2.2 st.2)) st).1.length = cols ∧
      (pairs.foldl (fun st p => (updCW S p.1 p.2.1 st.1, updRH p.1 p.2.2 st.2)) st).2.length = rows := by
  intro pairs
  induction pairs with
  | nil => intro st h1 h2 _; exact ⟨h1, h2⟩
  | cons p rest ih =>
    intro st h1 h2 hb
    rw [List.foldl_cons]
    exact ih _ (by rw [updCW_length S p.1 p.2.1 st.1 (by rw [h1]; exact hb p (by simp)), h1])
      (by rw [updRH_length, h2])
      (fun q hq => hb q (List.mem_cons_of_mem p hq))

/-- Length of the spec's pass-1 column widths. -/
theorem specCW_length (S : Nat) (r : ExplicitRule) (sizes : List (Nat × Nat))
    (hb : ∀ cfg ∈ r.configs, cfg.col - 1 + cfg.span ≤ r.cols) :
    (specCW S r sizes).length = r.cols :=
  (specPass1_fold_lengths S r.cols r.rows (r.configs.zip sizes) _ (by simp) (by simp)
    (fun p hp => hb p.1 (List.of_mem_zip hp).1)).1

/-- Length of the spec's pass-1 row heights. -/
theorem specRH1_length (S : Nat) (r : ExplicitRule) (sizes : List (Nat × Nat))
    (hb : ∀ cfg ∈ r.configs, cfg.col - 1 + cfg.span ≤ r.cols) :
    (specRH1 S r sizes).length = r.rows :=
  (specPass1_fold_lengths S r.cols r.rows (r.configs.zip sizes) _ (by simp) (by simp)
    (fun p hp => hb p.1 (List.of_mem_zip hp).1)).2

/-- The spec's pass-2 row-height fold preserves length. -/
theorem specPass2RH_length (S : Nat) (cw : List ℚ) :
    ∀ (pairs : List (Config × (Nat × Nat))) (rh : List Nat),
      (specPass2RH S cw rh pairs).length = rh.length := by
  intro pairs
  induction pairs with
  | nil => intro rh; rfl
  | cons p rest ih =>
    intro rh
    simp only [specPass2RH, List.foldl_cons] at ih ⊢
    rw [ih, updRH_length]

/-- Master refinement: on a valid rule the dict branch of `calculate_layout`
succeeds and returns exactly the spec-side column widths, row heights, canvas
formulas and per-image rescaled sizes, with the positions generated from
them. -/
theorem explicitLayout_eq (r : ExplicitRule) (imgs : List Img) (S : Nat)
    (hv : ValidExplicit r imgs) :
    explicitLayout r imgs S =
      .ok (scanRows r.configs S (specCW S r (imgs.map Img.size)) S 0
             (specRH S r (imgs.map Img.size)),
           pyIntNat ((specCW S r (imgs.map Img.size)).sum + (((r.cols + 1) * S : Nat) : ℚ)),
           (specRH S r (imgs.map Img.size)).sum + (r.rows + 1) * S,
           (specSizes S r (imgs.map Img.size)).map (fun wh => Img.resized wh.1 wh.2)) := by
  obtain ⟨hlen, hb, hcellnd, hwpos⟩ := hv
  have hnd : r.configs.Nodup := List.Nodup.of_map _ hcellnd
  have hp1 := pass1_drop_eq imgs r.configs S r.rows r.cols hnd hlen
    (fun cfg hc => ⟨(hb cfg hc).2.2.2.1, (hb cfg hc).2.2.2.2, by
      obtain ⟨h1, h2, _⟩ := hb cfg hc; omega⟩)
    r.configs.length 0 (List.replicate r.cols 0, List.replicate r.rows 0)
    (by omega) (by simp) (by simp)
  rw [List.drop_zero, List.drop_zero] at hp1
  have hcwlen : (specCW S r (imgs.map Img.size)).length = r.cols :=
    specCW_length S r (imgs.map Img.size) (fun cfg hc => (hb cfg hc).2.2.2.2)
  have hrh1len : (specRH1 S r (imgs.map Img.size)).length = r.rows :=
    specRH1_length S r (imgs.map Img.size) (fun cfg hc => (hb cfg hc).2.2.2.2)
  have hp2 := pass2_drop_eq imgs r.configs S (specCW S r (imgs.map Img.size)) r.rows hnd hlen
    (fun cfg hc => ⟨by rw [hcwlen]; exact (hb cfg hc).2.2.2.2, by
      obtain ⟨h1, h2, _⟩ := hb cfg hc; omega⟩)
    hwpos r.configs.length 0 imgs (specRH1 S r (imgs.map Img.size))
    (by omega) rfl (fun j _ => rfl) hrh1len
  rw [List.drop_zero, List.drop_zero] at hp2
  simp only [explicitLayout, hp1, specCW, specRH1, specPass1] at hp2 ⊢
  simp only [hp2, List.take_zero, List.nil_append, specRH, specPass2RH, specSizes, specCW,
    specRH1, specPass1, List.map_map]
  rfl

/-! ### Claim C2: the explicit calculator matches the spec's two passes -/

/-- C2: for every valid explicit rule and spacing, pass 1 maxes each spanned
column with `(w + (span-1)*S)/span` (real division) and each config's row with
the raw image height; pass 2 rescales image `i` to
`(trunc(w*scale), trunc(h*scale))` with
`scale = (Σ colWidth over the span + (span-1)*S)/w` and reconciles the row
height with the new height; the canvas is
`(trunc(Σ colWidth + (cols+1)*S), trunc(Σ rowHeight + (rows+1)*S))` — i.e. the
dict branch returns exactly the spec-side quantities `specCW`, `specRH`,
`specSizes`. -/
theorem c2_explicit_spec (r : ExplicitRule) (imgs : List Img) (S : Nat)
    (hv : ValidExplicit r imgs) :
    ∃ L, calculate_layout (.dict r) imgs S =
      .ok (L,
        pyIntNat ((specCW S r (imgs.map Img.size)).sum + (((r.cols + 1) * S : Nat) : ℚ)),
        (specRH S r (imgs.map Img.size)).sum + (r.rows + 1) * S,
        (specSizes S r (imgs.map Img.size)).map (fun wh => Img.resized wh.1 wh.2)) :=
  ⟨_, explicitLayout_eq r imgs S hv⟩

/-- Witness for C2: a 1-row, 2-column rule over images (4,6) and (10,8). -/
theorem c2_explicit_spec_witness :
    ∃ L, calculate_layout (.dict ⟨1, 2, [⟨1, 1, 1⟩, ⟨1, 2, 1⟩]⟩)
        [Img.orig 4 6, Img.orig 10 8] 2 =
      .ok (L,
        pyIntNat ((specCW 2 ⟨1, 2, [⟨1, 1, 1⟩, ⟨1, 2, 1⟩]⟩
            ([Img.orig 4 6, Img.orig 10 8].map Img.size)).sum + (((2 + 1) * 2 : Nat) : ℚ)),
        (specRH 2 ⟨1, 2, [⟨1, 1, 1⟩, ⟨1, 2, 1⟩]⟩
            ([Img.orig 4 6, Img.orig 10 8].map Img.size)).sum + (1 + 1) * 2,
        (specSizes 2 ⟨1, 2, [⟨1, 1, 1⟩, ⟨1, 2, 1⟩]⟩
            ([Img.orig 4 6, Img.orig 10 8].map Img.size)).map (fun wh => Img.resized wh.1 wh.2)) :=
  c2_explicit_spec ⟨1, 2, [⟨1, 1, 1⟩, ⟨1, 2, 1⟩]⟩ [Img.orig 4 6, Img.orig 10 8] 2
    (by unfold ValidExplicit; decide)

/-! ### Claim C10: mutation of the image list -/

/-- C10: on a valid rule, the dict branch replaces every entry of
`img_objects` by a freshly resized handle (so the caller observes a changed
list whenever there is at least one image), while the int branch returns the
image list untouched. -/
theorem c10_mutation (r : ExplicitRule) (imgs : List Img) (S : Nat)
    (hv : ValidExplicit r imgs) (hne : imgs ≠ [])
    (horig : ∀ im ∈ imgs, ∃ w h, im = Img.orig w h) :
    (∃ L W H imgs', calculate_layout (.dict r) imgs S = .ok (L, W, H, imgs') ∧
      (∀ im ∈ imgs', ∃ w h, im = Img.resized w h) ∧ imgs' ≠ imgs) ∧
    (∀ c : Nat, ∃ L W H, calculate_layout (.int c) imgs S = .ok (L, W, H, imgs)) := by
  constructor
  · refine ⟨_, _, _, _, explicitLayout_eq r imgs S hv, ?_, ?_⟩
    · intro im him
      simp only [List.mem_map] at him
      obtain ⟨wh, _, hwh⟩ := him
      exact ⟨wh.1, wh.2, hwh.symm⟩
    · intro heq
      have h0 : 0 < imgs.length := List.length_pos.mpr hne
      have hlen' : ((specSizes S r (imgs.map Img.size)).map
          (fun wh => Img.resized wh.1 wh.2)).length = imgs.length := by
        simp [specSizes, hv.1]
      have h0' : 0 < ((specSizes S r (imgs.map Img.size)).map
          (fun wh => Img.resized wh.1 wh.2)).length := by omega
      obtain ⟨w, h, hw⟩ := horig imgs[0] (List.getElem_mem h0)
      have h1 : ((specSizes S r (imgs.map Img.size)).map
          (fun wh => Img.resized wh.1 wh.2))[0]? = imgs[0]? := by rw [heq]
      rw [List.getElem?_map, List.getElem?_eq_getElem h0, hw] at h1
      cases h3 : (specSizes S r (imgs.map Img.size))[0]? with
      | none => rw [h3] at h1; cases h1
      | some wh => rw [h3] at h1; simp at h1
  · intro c
    have hlen0 : imgs.length ≠ 0 := fun h => hne (List.length_eq_zero.mp h)
    by_cases hc : c = 0
    · subst hc
      exact ⟨_, _, _, gridLayout_zero_eq imgs S hlen0⟩
    · exact ⟨_, _, _, gridLayout_pos_eq c imgs S hlen0 hc⟩

/-- Witness for C10 at a single image and a 1-cell rule. -/
theorem c10_mutation_witness :
    (∃ L W H imgs', calculate_layout (.dict ⟨1, 1, [⟨1, 1, 1⟩]⟩) [Img.orig 3 4] 1 =
        .ok (L, W, H, imgs') ∧
      (∀ im ∈ imgs', ∃ w h, im = Img.resized w h) ∧ imgs' ≠ [Img.orig 3 4]) ∧
    (∀ c : Nat, ∃ L W H,
      calculate_layout (.int c) [Img.orig 3 4] 1 = .ok (L, W, H, [Img.orig 3 4])) :=
  c10_mutation ⟨1, 1, [⟨1, 1, 1⟩]⟩ [Img.orig 3 4] 1 (by unfold ValidExplicit; decide) (by simp)
    (fun im him => by
      simp only [List.mem_singleton] at him
      exact ⟨3, 4, him⟩)


def Xpos (S : Nat) (cw : List ℚ) (c : Nat) : Nat :=
  S + ((cw.take c).map (fun w => pyIntNat (w + (S : ℚ)))).sum

def Ypos (S : Nat) (rh : List Nat) (r : Nat) : Nat :=
  S + ((rh.take r).map (fun hh => hh + S)).sum

theorem scanCols_eq (configs : List Config) (S row_i y : Nat) :
    ∀ (ws : List ℚ) (x c0 : Nat),
      scanCols configs S row_i y x c0 ws =
        ((List.range ws.length).filter (fun j => cellClaimed configs row_i (c0 + j))).map
          (fun j => (x + ((ws.take j).map (fun w => pyIntNat (w + (S : ℚ)))).sum, y)) := by
  intro ws
  induction ws with
  | nil => intro x c0; rfl
  | cons w ws ih =>
    intro x c0
    have hq : ∀ j ∈ List.range ws.length,
        ((fun j => cellClaimed configs row_i (c0 + j)) ∘ Nat.succ) j
          = (fun j => cellClaimed configs row_i (c0 + 1 + j)) j := by
      intro j _
      simp only [Function.comp_apply]
      congr 1
      omega
    have hg : ∀ j ∈ (List.range ws.length).filter (fun j => cellClaimed configs row_i (c0 + 1 + j)),
        ((fun j => (x + (((w :: ws).take j).map (fun v => pyIntNat (v + (S : ℚ)))).sum, y))
          ∘ Nat.succ) j
          = (fun j => (x + pyIntNat (w + (S : ℚ))
              + ((ws.take j).map (fun v => pyIntNat (v + (S : ℚ)))).sum, y)) j := by
      intro j _
      simp only [Function.comp_apply, List.take_succ_cons, List.map_cons, List.sum_cons,
        Prod.mk.injEq, and_true]
      omega
    simp only [scanCols]
    rw [ih (x + pyIntNat (w + (S : ℚ))) (c0 + 1)]
    rw [List.length_cons, List.range_succ_eq_map, List.filter_cons]
    simp only [Nat.add_zero]
    rw [apply_ite (List.map (fun j =>
      (x + (((w :: ws).take j).map (fun v => pyIntNat (v + (S : ℚ)))).sum, y)))]
    simp only [List.map_cons, List.filter_map, List.map_map]
    rw [List.filter_congr hq, List.map_congr_left hg]
    by_cases hcl : cellClaimed configs row_i c0
    · simp [hcl]
    · simp [hcl]

theorem scanRows_eq (configs : List Config) (S : Nat) (cw : List ℚ) :
    ∀ (hs : List Nat) (y r0 : Nat),
      scanRows configs S cw y r0 hs =
        (List.range hs.length).flatMap (fun i =>
          ((List.range cw.length).filter (fun j => cellClaimed configs (r0 + i) j)).map
            (fun j => (S + ((cw.take j).map (fun w => pyIntNat (w + (S : ℚ)))).sum,
                       y + ((hs.take i).map (fun hh => hh + S)).sum))) := by
  intro hs
  induction hs with
  | nil => intro y r0; rfl
  | cons h hs ih =>
    intro y r0
    simp only [scanRows]
    rw [ih (y + (h + S)) (r0 + 1)]
    rw [List.length_cons, List.range_succ_eq_map, List.flatMap_cons, List.flatMap_map]
    beta_reduce
    congr 1
    · rw [scanCols_eq]
      rw [List.filter_congr (fun j _ => by
        show cellClaimed configs r0 (0 + j) = cellClaimed configs (r0 + 0) j
        rw [Nat.zero_add, Nat.add_zero])]
      apply List.map_congr_left
      intro j _
      simp
    · apply List.flatMap_congr
      intro i _
      rw [List.filter_congr (fun j _ => by
        show cellClaimed configs (r0 + 1 + i) j = cellClaimed configs (r0 + (i + 1)) j
        rw [show r0 + 1 + i = r0 + (i + 1) from by omega])]
      apply List.map_congr_left
      intro j _
      simp only [List.take_succ_cons, List.map_cons, List.sum_cons, Prod.mk.injEq, true_and]
      omega

/-- The grid cells (0-based row, column) that some config claims, in the scan
order of the position-generation loops (row-major). -/
def cellList (rows cols : Nat) (configs : List Config) : List (Nat × Nat) :=
  (List.range rows).flatMap (fun i =>
    ((List.range cols).filter (fun j => cellClaimed configs i j)).map (fun j => (i, j)))

/-- The 0-based cell a config claims. -/
def cellOf (cfg : Config) : Nat × Nat := (cfg.row - 1, cfg.col - 1)

/-- Row-major (scan) order on configs: rows strictly before, and inside a row
columns strictly before. -/
def RowMajorOrdered (configs : List Config) : Prop :=
  configs.Pairwise (fun a b => a.row < b.row ∨ (a.row = b.row ∧ a.col < b.col))

/-- Strict row-major order on 0-based cells. -/
def cellLt (a b : Nat × Nat) : Prop := a.1 < b.1 ∨ (a.1 = b.1 ∧ a.2 < b.2)

instance : IsAntisymm (Nat × Nat) cellLt where
  antisymm a b h1 h2 := by
    unfold cellLt at h1 h2
    exfalso
    omega

theorem scanRows_as_cellList (configs : List Config) (S : Nat) (cw : List ℚ) (rh : List Nat) :
    scanRows configs S cw S 0 rh =
      (cellList rh.length cw.length configs).map
        (fun rc => (Xpos S cw rc.2, Ypos S rh rc.1)) := by
  rw [scanRows_eq]
  unfold cellList
  rw [List.map_flatMap]
  apply List.flatMap_congr
  intro i _
  rw [List.map_map]
  rw [List.filter_congr (fun j _ => by
    show cellClaimed configs (0 + i) j = cellClaimed configs i j
    rw [Nat.zero_add])]
  apply List.map_congr_left
  intro j _
  simp [Xpos, Ypos, Function.comp]

theorem cellList_pairwise (rows cols : Nat) (configs : List Config) :
    (cellList rows cols configs).Pairwise cellLt := by
  unfold cellList
  rw [List.flatMap_def, List.pairwise_flatten]
  constructor
  · intro l hl
    simp only [List.mem_map, List.mem_range] at hl
    obtain ⟨i, _, rfl⟩ := hl
    rw [List.pairwise_map]
    apply List.Pairwise.imp ?_ (List.Pairwise.filter _ (List.pairwise_lt_range cols))
    intro a b hab
    exact Or.inr ⟨rfl, hab⟩
  · rw [List.pairwise_map]
    apply List.Pairwise.imp ?_ (List.pairwise_lt_range rows)
    intro i1 i2 h12
    intro x hx y hy
    simp only [List.mem_map] at hx hy
    obtain ⟨j1, _, rfl⟩ := hx
    obtain ⟨j2, _, rfl⟩ := hy
    exact Or.inl h12

theorem cellLt_ne (a b : Nat × Nat) (h : cellLt a b) : a ≠ b := by
  intro heq
  subst heq
  unfold cellLt at h
  omega

theorem cellList_nodup (rows cols : Nat) (configs : List Config) :
    (cellList rows cols configs).Nodup :=
  (cellList_pairwise rows cols configs).imp (fun h => cellLt_ne _ _ h)

theorem configs_cells_pairwise (configs : List Config) (hord : RowMajorOrdered configs)
    (hfields : ∀ cfg ∈ configs, 1 ≤ cfg.row ∧ 1 ≤ cfg.col) :
    (configs.map cellOf).Pairwise cellLt := by
  rw [List.pairwise_map]
  apply List.Pairwise.imp_of_mem ?_ hord
  intro a b ha hb hab
  obtain ⟨ha1, ha2⟩ := hfields a ha
  obtain ⟨hb1, hb2⟩ := hfields b hb
  unfold cellOf cellLt
  rcases hab with h | ⟨h1, h2⟩
  · left; simp; omega
  · right; constructor
    · simp; omega
    · simp; omega

theorem mem_cellList (rows cols : Nat) (configs : List Config) (rc : Nat × Nat) :
    rc ∈ cellList rows cols configs ↔
      rc.1 < rows ∧ rc.2 < cols ∧
        ∃ cfg ∈ configs, cfg.row - 1 = rc.1 ∧ cfg.col - 1 = rc.2 := by
  unfold cellList
  simp only [List.mem_flatMap, List.mem_map, List.mem_filter, List.mem_range, cellClaimed,
    List.any_eq_true, Bool.and_eq_true, beq_iff_eq]
  constructor
  · rintro ⟨i, hi, j, ⟨⟨hj, cfg, hcfg, h1, h2⟩, rfl⟩⟩
    exact ⟨hi, hj, cfg, hcfg, h1, h2⟩
  · rintro ⟨h1, h2, cfg, hcfg, hr, hc⟩
    exact ⟨rc.1, h1, rc.2, ⟨⟨h2, cfg, hcfg, hr, hc⟩, rfl⟩⟩

theorem cellList_eq_configs_map (rows cols : Nat) (configs : List Config)
    (hfields : ∀ cfg ∈ configs, 1 ≤ cfg.row ∧ cfg.row ≤ rows ∧ 1 ≤ cfg.col ∧
      1 ≤ cfg.span ∧ cfg.col - 1 + cfg.span ≤ cols)
    (hord : RowMajorOrdered configs) :
    cellList rows cols configs = configs.map cellOf := by
  have hsorted2 : (configs.map cellOf).Pairwise cellLt :=
    configs_cells_pairwise configs hord
      (fun cfg hc => ⟨(hfields cfg hc).1, (hfields cfg hc).2.2.1⟩)
  apply List.eq_of_perm_of_sorted (r := cellLt)
  · rw [List.perm_ext_iff_of_nodup (cellList_nodup rows cols configs)
      (hsorted2.imp (fun h => cellLt_ne _ _ h))]
    intro rc
    rw [mem_cellList]
    constructor
    · rintro ⟨_, _, cfg, hcfg, h1, h2⟩
      simp only [List.mem_map]
      exact ⟨cfg, hcfg, by simp [cellOf, h1, h2]⟩
    · intro hrc
      simp only [List.mem_map] at hrc
      obtain ⟨cfg, hcfg, rfl⟩ := hrc
      obtain ⟨f1, f2, f3, f4, f5⟩ := hfields cfg hcfg
      exact ⟨by simp [cellOf]; omega, by simp [cellOf]; omega, cfg, hcfg, rfl, rfl⟩
  · exact cellList_pairwise rows cols configs
  · exact hsorted2

theorem specRH_length (S : Nat) (r : ExplicitRule) (sizes : List (Nat × Nat))
    (hb : ∀ cfg ∈ r.configs, cfg.col - 1 + cfg.span ≤ r.cols) :
    (specRH S r sizes).length = r.rows := by
  unfold specRH
  rw [specPass2RH_length, specRH1_length S r sizes hb]

theorem configs_cellOf_nodup (configs : List Config)
    (hfields : ∀ cfg ∈ configs, 1 ≤ cfg.row ∧ 1 ≤ cfg.col)
    (hcellnd : (configs.map (fun cfg => (cfg.row, cfg.col))).Nodup) :
    (configs.map cellOf).Nodup := by
  have hrw : configs.map cellOf =
      (configs.map (fun cfg => (cfg.row, cfg.col))).map (fun p => (p.1 - 1, p.2 - 1)) := by
    rw [List.map_map]
    apply List.map_congr_left
    intro a _
    rfl
  rw [hrw]
  apply List.Nodup.map_on ?_ hcellnd
  intro x hx y hy hxy
  simp only [List.mem_map] at hx hy
  obtain ⟨a, ha, rfl⟩ := hx
  obtain ⟨b, hb, rfl⟩ := hy
  obtain ⟨ha1, ha2⟩ := hfields a ha
  obtain ⟨hb1, hb2⟩ := hfields b hb
  simp only [Prod.mk.injEq] at hxy ⊢
  omega

/-- Under a valid rule the scanned cells are a permutation of the configs'
cells: every config produces exactly one emitted position. -/
theorem cellList_perm_configs (rows cols : Nat) (configs : List Config)
    (hfields : ∀ cfg ∈ configs, 1 ≤ cfg.row ∧ cfg.row ≤ rows ∧ 1 ≤ cfg.col ∧
      1 ≤ cfg.span ∧ cfg.col - 1 + cfg.span ≤ cols)
    (hcellnd : (configs.map (fun cfg => (cfg.row, cfg.col))).Nodup) :
    (cellList rows cols configs).Perm (configs.map cellOf) := by
  rw [List.perm_ext_iff_of_nodup (cellList_nodup rows cols configs)
    (configs_cellOf_nodup configs
      (fun cfg hc => ⟨(hfields cfg hc).1, (hfields cfg hc).2.2.1⟩) hcellnd)]
  intro rc
  rw [mem_cellList]
  constructor
  · rintro ⟨_, _, cfg, hcfg, h1, h2⟩
    simp only [List.mem_map]
    exact ⟨cfg, hcfg, by simp [cellOf, h1, h2]⟩
  · intro hrc
    simp only [List.mem_map] at hrc
    obtain ⟨cfg, hcfg, rfl⟩ := hrc
    obtain ⟨f1, f2, f3, f4, f5⟩ := hfields cfg hcfg
    exact ⟨by simp [cellOf]; omega, by simp [cellOf]; omega, cfg, hcfg, rfl, rfl⟩

/-! ### Claim C4: placement order -/

/-- C4 counterexample: with configs listed against the scan order (first
config names row 2, second names row 1), the emitted placement sequence is in
row-major scan order, so its first entry `(0, 0)` is the first scanned cell's
position, not the position `(0, 20)` of image 0's own cell (row 2) — yet
`create_collage` pastes image 0 at `layout[0]`. -/
theorem c4_counterexample :
    calculate_layout (.dict ⟨2, 1, [⟨2, 1, 1⟩, ⟨1, 1, 1⟩]⟩)
        [Img.orig 10 10, Img.orig 10 20] 0 =
      .ok ([(0, 0), (0, 20)], 10, 30, [Img.resized 10 10, Img.resized 10 20]) ∧
    ((0 : Nat), (0 : Nat)) ≠
      (Xpos 0 (specCW 0 ⟨2, 1, [⟨2, 1, 1⟩, ⟨1, 1, 1⟩]⟩
          ([Img.orig 10 10, Img.orig 10 20].map Img.size)) (1 - 1),
       Ypos 0 (specRH 0 ⟨2, 1, [⟨2, 1, 1⟩, ⟨1, 1, 1⟩]⟩
          ([Img.orig 10 10, Img.orig 10 20].map Img.size)) (2 - 1)) := by
  constructor
  · simp [calculate_layout, explicitLayout, pass1, pass1Step, pass2, pass2Step,
      listGet, listGetRange, sliceAssign, pySlice, listUpd, listSetV, pyIndex,
      pyIntNat, pyInt, scanRows, scanCols, cellClaimed, Img.size]
  · simp [Xpos, Ypos, specCW, specRH, specRH1, specPass1, specPass2RH, updCW, updRH,
      specNewSize, specTotal, specScaledW, pyIntNat, pyInt, Img.size, List.range_succ]
    norm_num
    decide

/-- C4 amended: on a valid rule every config produces exactly one placement
(the layout list and the config list have equal length), and the placement
sequence is in row-major scan order: its `i`-th entry is the position of
image `i`'s own cell precisely when the configs are listed in row-major
order. -/
theorem c4_placements (r : ExplicitRule) (imgs : List Img) (S : Nat)
    (hv : ValidExplicit r imgs) :
    ∃ W H I L, calculate_layout (.dict r) imgs S = .ok (L, W, H, I) ∧
      L.length = r.configs.length ∧
      (RowMajorOrdered r.configs →
        L = r.configs.map (fun cfg =>
          (Xpos S (specCW S r (imgs.map Img.size)) (cfg.col - 1),
           Ypos S (specRH S r (imgs.map Img.size)) (cfg.row - 1)))) := by
  have heq := explicitLayout_eq r imgs S hv
  obtain ⟨hlen, hb, hcellnd, hwpos⟩ := hv
  have hcw : (specCW S r (imgs.map Img.size)).length = r.cols :=
    specCW_length S r (imgs.map Img.size) (fun cfg hc => (hb cfg hc).2.2.2.2)
  have hrh : (specRH S r (imgs.map Img.size)).length = r.rows :=
    specRH_length S r (imgs.map Img.size) (fun cfg hc => (hb cfg hc).2.2.2.2)
  refine ⟨_, _, _, _, heq, ?_, ?_⟩
  · rw [scanRows_as_cellList, List.length_map, hcw, hrh,
      (cellList_perm_configs r.rows r.cols r.configs hb hcellnd).length_eq,
      List.length_map]
  · intro hord
    rw [scanRows_as_cellList, hcw, hrh,
      cellList_eq_configs_map r.rows r.cols r.configs hb hord, List.map_map]
    apply List.map_congr_left
    intro cfg _
    rfl

/-- Witness for C4's amended statement: a row-major-ordered two-config rule. -/
theorem c4_placements_witness :
    ∃ W H I L, calculate_layout (.dict ⟨1, 2, [⟨1, 1, 1⟩, ⟨1, 2, 1⟩]⟩)
        [Img.orig 4 6, Img.orig 10 8] 2 = .ok (L, W, H, I) ∧
      L.length = 2 ∧
      (RowMajorOrdered [⟨1, 1, 1⟩, ⟨1, 2, 1⟩] →
        L = [(⟨1, 1, 1⟩ : Config), ⟨1, 2, 1⟩].map (fun cfg =>
          (Xpos 2 (specCW 2 ⟨1, 2, [⟨1, 1, 1⟩, ⟨1, 2, 1⟩]⟩
              ([Img.orig 4 6, Img.orig 10 8].map Img.size)) (cfg.col - 1),
           Ypos 2 (specRH 2 ⟨1, 2, [⟨1, 1, 1⟩, ⟨1, 2, 1⟩]⟩
              ([Img.orig 4 6, Img.orig 10 8].map Img.size)) (cfg.row - 1)))) :=
  c4_placements ⟨1, 2, [⟨1, 1, 1⟩, ⟨1, 2, 1⟩]⟩ [Img.orig 4 6, Img.orig 10 8] 2
    (by unfold ValidExplicit; decide)

/-! ### Arithmetic facts about the truncation `pyIntNat` -/

theorem pyInt_of_nonneg (q : ℚ) (hq : 0 ≤ q) : pyInt q = ⌊q⌋ := by
  rw [pyInt, if_pos hq]

theorem pyIntNat_coe (q : ℚ) (hq : 0 ≤ q) : (pyIntNat q : ℤ) = ⌊q⌋ := by
  rw [pyIntNat, pyInt_of_nonneg q hq, Int.toNat_of_nonneg (Int.floor_nonneg.mpr hq)]

theorem pyIntNat_mono (q1 q2 : ℚ) (h1 : 0 ≤ q1) (h : q1 ≤ q2) :
    pyIntNat q1 ≤ pyIntNat q2 := by
  rw [pyIntNat, pyIntNat, pyInt_of_nonneg q1 h1, pyInt_of_nonneg q2 (le_trans h1 h)]
  exact Int.toNat_le_toNat (Int.floor_le_floor h)

theorem pyIntNat_add_nat (q : ℚ) (hq : 0 ≤ q) (n : Nat) :
    pyIntNat (q + (n : ℚ)) = pyIntNat q + n := by
  rw [pyIntNat, pyIntNat, pyInt_of_nonneg q hq,
    pyInt_of_nonneg _ (by positivity), Int.floor_add_nat,
    Int.toNat_add_nat (Int.floor_nonneg.mpr hq)]

theorem pyIntNat_add_le (q1 q2 : ℚ) (h1 : 0 ≤ q1) (h2 : 0 ≤ q2) :
    pyIntNat q1 + pyIntNat q2 ≤ pyIntNat (q1 + q2) := by
  have hf : ⌊q1⌋ + ⌊q2⌋ ≤ ⌊q1 + q2⌋ := by
    rw [Int.le_floor]
    push_cast
    exact add_le_add (Int.floor_le q1) (Int.floor_le q2)
  have g1 : 0 ≤ ⌊q1⌋ := Int.floor_nonneg.mpr h1
  have g2 : 0 ≤ ⌊q2⌋ := Int.floor_nonneg.mpr h2
  rw [pyIntNat, pyIntNat, pyIntNat, pyInt_of_nonneg q1 h1, pyInt_of_nonneg q2 h2,
    pyInt_of_nonneg _ (by positivity)]
  omega

theorem sum_pyIntNat_le (qs : List ℚ) (hnn : ∀ q ∈ qs, 0 ≤ q) :
    (qs.map pyIntNat).sum ≤ pyIntNat qs.sum := by
  induction qs with
  | nil => simp [pyIntNat, pyInt]
  | cons q qs ih =>
    simp only [List.map_cons, List.sum_cons]
    calc pyIntNat q + (qs.map pyIntNat).sum
        ≤ pyIntNat q + pyIntNat qs.sum := by
          have := ih (fun x hx => hnn x (List.mem_cons_of_mem q hx))
          omega
      _ ≤ pyIntNat (q + qs.sum) :=
          pyIntNat_add_le q qs.sum (hnn q (List.mem_cons_self q qs))
            (List.sum_nonneg (fun x hx => hnn x (List.mem_cons_of_mem q hx)))

/-! ### Non-negativity of the column widths -/

theorem getD_nonneg (l : List ℚ) (hnn : ∀ v ∈ l, 0 ≤ v) (i : Nat) : 0 ≤ l.getD i 0 := by
  by_cases hi : i < l.length
  · rw [List.getD_eq_getElem l 0 hi]
    exact hnn _ (List.getElem_mem hi)
  · rw [List.getD_eq_default l 0 (by omega)]

theorem specScaledW_nonneg (S : Nat) (cfg : Config) (w : Nat) :
    0 ≤ specScaledW S cfg w := by
  unfold specScaledW
  positivity

theorem updCW_nonneg (S : Nat) (cfg : Config) (w : Nat) (cw : List ℚ)
    (hnn : ∀ v ∈ cw, 0 ≤ v) :
    ∀ v ∈ updCW S cfg w cw, 0 ≤ v := by
  intro v hv
  unfold updCW at hv
  rcases List.mem_append.mp hv with hv' | hv'
  · rcases List.mem_append.mp hv' with h | h
    · exact hnn v (List.mem_of_mem_take h)
    · obtain ⟨j, _, rfl⟩ := List.mem_map.mp h
      exact le_max_of_le_left (getD_nonneg cw hnn _)
  · exact hnn v (List.mem_of_mem_drop hv')

theorem specCW_nonneg_fold (S : Nat) :
    ∀ (pairs : List (Config × (Nat × Nat))) (st : List ℚ × List Nat),
      (∀ v ∈ st.1, 0 ≤ v) →
      ∀ v ∈ (pairs.foldl (fun st p => (updCW S p.1 p.2.1 st.1, updRH p.1 p.2.2 st.2)) st).1,
        0 ≤ v := by
  intro pairs
  induction pairs with
  | nil => intro st h; exact h
  | cons p rest ih =>
    intro st h
    rw [List.foldl_cons]
    exact ih _ (updCW_nonneg S p.1 p.2.1 st.1 h)

theorem specCW_nonneg (S : Nat) (r : ExplicitRule) (sizes : List (Nat × Nat)) :
    ∀ v ∈ specCW S r sizes, 0 ≤ v :=
  specCW_nonneg_fold S (r.configs.zip sizes) _ (by simp)

/-! ### The final row heights dominate each image's new height -/

theorem updRH_getD_le (cfg : Config) (h : Nat) (rh : List Nat) (j : Nat) :
    rh.getD j 0 ≤ (updRH cfg h rh).getD j 0 := by
  unfold updRH
  by_cases hj : j < rh.length
  · rw [List.getD_eq_getElem rh 0 hj,
      List.getD_eq_getElem (rh.set (cfg.row - 1) (max (rh.getD (cfg.row - 1) 0) h)) 0
        (by simpa using hj),
      List.getElem_set]
    by_cases hr : cfg.row - 1 = j
    · rw [if_pos hr, hr, List.getD_eq_getElem rh 0 hj]
      exact le_max_left _ _
    · rw [if_neg hr]
  · rw [List.getD_eq_default rh 0 (Nat.le_of_not_lt hj),
      List.getD_eq_default _ 0 (by simpa using Nat.le_of_not_lt hj)]

theorem specPass2RH_getD_le (S : Nat) (cw : List ℚ) :
    ∀ (pairs : List (Config × (Nat × Nat))) (rh : List Nat) (j : Nat),
      rh.getD j 0 ≤ (specPass2RH S cw rh pairs).getD j 0 := by
  intro pairs
  induction pairs with
  | nil => intro rh j; exact le_refl _
  | cons p rest ih =>
    intro rh j
    simp only [specPass2RH, List.foldl_cons] at ih ⊢
    exact le_trans (updRH_getD_le p.1 _ rh j) (ih _ j)

theorem updRH_getD_self (cfg : Config) (h : Nat) (rh : List Nat)
    (hr : cfg.row - 1 < rh.length) :
    h ≤ (updRH cfg h rh).getD (cfg.row - 1) 0 := by
  unfold updRH
  rw [List.getD_eq_getElem _ 0 (by simpa using hr), List.getElem_set, if_pos rfl]
  exact le_max_right _ _

theorem specPass2RH_ge_newheight (S : Nat) (cw : List ℚ) (pairs : List (Config × (Nat × Nat)))
    (rh : List Nat) (i : Nat) (hi : i < pairs.length)
    (hrow : pairs[i].1.row - 1 < rh.length) :
    (specNewSize S cw pairs[i].1 pairs[i].2).2
      ≤ (specPass2RH S cw rh pairs).getD (pairs[i].1.row - 1) 0 := by
  have hsplit : pairs = pairs.take i ++ (pairs[i] :: pairs.drop (i + 1)) := by
    rw [← List.drop_eq_getElem_cons hi, List.take_append_drop]
  have hfold : specPass2RH S cw rh pairs
      = (pairs[i] :: pairs.drop (i + 1)).foldl
          (fun acc p => updRH p.1 (specNewSize S cw p.1 p.2).2 acc)
          (specPass2RH S cw rh (pairs.take i)) := by
    conv_lhs => rw [hsplit]
    unfold specPass2RH
    rw [List.foldl_append]
  rw [hfold, List.foldl_cons]
  have hmid : (specPass2RH S cw rh (pairs.take i)).length = rh.length :=
    specPass2RH_length S cw (pairs.take i) rh
  refine le_trans (updRH_getD_self pairs[i].1 (specNewSize S cw pairs[i].1 pairs[i].2).2
    (specPass2RH S cw rh (pairs.take i)) (by omega)) ?_
  exact specPass2RH_getD_le S cw (pairs.drop (i + 1)) _ _

/-! ### Containment inequalities -/

theorem sum_map_add_natQ (S : Nat) (l : List ℚ) :
    ((l.map (fun w => w + (S : ℚ))).sum = l.sum + (l.length : ℚ) * S) := by
  induction l with
  | nil => simp
  | cons w l ih =>
    simp only [List.map_cons, List.sum_cons, List.length_cons, ih]
    push_cast
    ring

theorem sum_map_add_natN (S : Nat) (l : List Nat) :
    ((l.map (fun hh => hh + S)).sum = l.sum + l.length * S) := by
  induction l with
  | nil => simp
  | cons w l ih =>
    simp only [List.map_cons, List.sum_cons, List.length_cons, ih]
    ring

theorem take_sum_add_slice (cw : List ℚ) (a s : Nat) (h : a + s ≤ cw.length) :
    (cw.take a).sum + ((List.range s).map (fun j => cw.getD (a + j) 0)).sum
      = (cw.take (a + s)).sum := by
  rw [← pySlice_eq_map cw a s h]
  unfold pySlice
  conv_rhs => rw [← List.take_append_drop a (cw.take (a + s))]
  rw [List.sum_append, List.take_take, Nat.min_eq_left (by omega)]

theorem take_sum_le (cw : List ℚ) (n : Nat) (hnn : ∀ v ∈ cw, 0 ≤ v) :
    (cw.take n).sum ≤ cw.sum := by
  conv_rhs => rw [← List.take_append_drop n cw]
  rw [List.sum_append]
  have : 0 ≤ (cw.drop n).sum :=
    List.sum_nonneg (fun x hx => hnn x (List.mem_of_mem_drop hx))
  linarith

/-- The x-extent of a spanning image stays inside the canvas width. -/
theorem xpos_add_width_le (S : Nat) (cw : List ℚ) (cfg : Config)
    (hnn : ∀ v ∈ cw, 0 ≤ v) (hs : 1 ≤ cfg.span)
    (hbound : cfg.col - 1 + cfg.span ≤ cw.length) :
    Xpos S cw (cfg.col - 1) + pyIntNat (specTotal S cw cfg)
      ≤ pyIntNat (cw.sum + (((cw.length + 1) * S : Nat) : ℚ)) := by
  have htot_nn : 0 ≤ specTotal S cw cfg := by
    unfold specTotal
    have : 0 ≤ ((List.range cfg.span).map (fun j => cw.getD (cfg.col - 1 + j) 0)).sum :=
      List.sum_nonneg (by
        intro x hx
        obtain ⟨j, _, rfl⟩ := List.mem_map.mp hx
        exact getD_nonneg cw hnn _)
    positivity
  set a := cfg.col - 1 with ha
  -- the mapped take as a `map pyIntNat`
  have hmm : (cw.take a).map (fun w => pyIntNat (w + (S : ℚ)))
      = ((cw.take a).map (fun w => w + (S : ℚ))).map pyIntNat := by
    rw [List.map_map]
    rfl
  have hqs_nn : ∀ q ∈ (cw.take a).map (fun w => w + (S : ℚ)), 0 ≤ q := by
    intro q hq
    obtain ⟨w, hw, rfl⟩ := List.mem_map.mp hq
    have : 0 ≤ w := hnn w (List.mem_of_mem_take hw)
    positivity
  have hqs_sum_nn : 0 ≤ ((cw.take a).map (fun w => w + (S : ℚ))).sum :=
    List.sum_nonneg hqs_nn
  have step1 : (((cw.take a).map (fun w => w + (S : ℚ))).map pyIntNat).sum
      + pyIntNat (specTotal S cw cfg)
      ≤ pyIntNat (((cw.take a).map (fun w => w + (S : ℚ))).sum + specTotal S cw cfg) := by
    have h1 := sum_pyIntNat_le _ hqs_nn
    have h2 := pyIntNat_add_le _ _ hqs_sum_nn htot_nn
    omega
  have step2 : Xpos S cw a + pyIntNat (specTotal S cw cfg)
      ≤ pyIntNat (((cw.take a).map (fun w => w + (S : ℚ))).sum + specTotal S cw cfg + (S : ℚ)) := by
    rw [pyIntNat_add_nat _ (by positivity) S]
    unfold Xpos
    rw [hmm]
    omega
  refine le_trans step2 (pyIntNat_mono _ _ (by positivity) ?_)
  -- the rational inequality
  rw [sum_map_add_natQ]
  unfold specTotal
  have hlen : (cw.take a).length = a := by
    rw [List.length_take]
    omega
  rw [hlen]
  have hbig : (cw.take a).sum + ((List.range cfg.span).map (fun j => cw.getD (a + j) 0)).sum
      ≤ cw.sum := by
    rw [take_sum_add_slice cw a cfg.span (by omega)]
    exact take_sum_le cw (a + cfg.span) hnn
  have hScast : (a : ℚ) * S + (((cfg.span - 1) * S : Nat) : ℚ) + S
      ≤ (((cw.length + 1) * S : Nat) : ℚ) := by
    have hnat : a * S + (cfg.span - 1) * S + S ≤ (cw.length + 1) * S := by
      have : (a + (cfg.span - 1) + 1) ≤ cw.length + 1 := by omega
      calc a * S + (cfg.span - 1) * S + S = (a + (cfg.span - 1) + 1) * S := by ring
        _ ≤ (cw.length + 1) * S := Nat.mul_le_mul_right S this
    calc (a : ℚ) * S + (((cfg.span - 1) * S : Nat) : ℚ) + S
        = ((a * S + (cfg.span - 1) * S + S : Nat) : ℚ) := by push_cast; ring
      _ ≤ (((cw.length + 1) * S : Nat) : ℚ) := by exact_mod_cast hnat
  linarith

/-- The y-extent of an image stays inside the canvas height. -/
theorem ypos_add_height_le (S : Nat) (rh : List Nat) (r nh : Nat)
    (hr : r < rh.length) (hnh : nh ≤ rh.getD r 0) :
    Ypos S rh r + nh ≤ rh.sum + (rh.length + 1) * S := by
  unfold Ypos
  rw [sum_map_add_natN]
  have hlen : (rh.take r).length = r := by
    rw [List.length_take]
    omega
  rw [hlen]
  have hsum : (rh.take r).sum + rh.getD r 0 ≤ rh.sum := by
    conv_rhs => rw [← List.take_append_drop r rh]
    rw [List.sum_append, List.drop_eq_getElem_cons hr, List.sum_cons,
      List.getD_eq_getElem _ 0 hr]
    omega
  have hmul : S + r * S ≤ (rh.length + 1) * S := by
    have h1 : (1 + r) ≤ rh.length + 1 := by omega
    calc S + r * S = (1 + r) * S := by ring
      _ ≤ (rh.length + 1) * S := Nat.mul_le_mul_right S h1
  have e1 : (rh.take r).sum + rh.getD r 0 ≤ rh.sum := hsum
  generalize hE1 : r * S = E1 at *
  generalize hE2 : (rh.length + 1) * S = E2 at *
  omega

theorem Img.size_resized (w h : Nat) : (Img.resized w h).size = (w, h) := rfl

theorem specNewSize_fst (S : Nat) (cw : List ℚ) (cfg : Config) (wh : Nat × Nat)
    (hw : wh.1 ≠ 0) :
    (specNewSize S cw cfg wh).1 = pyIntNat (specTotal S cw cfg) := by
  unfold specNewSize
  have hc : (wh.1 : ℚ) * (specTotal S cw cfg / (wh.1 : ℚ)) = specTotal S cw cfg := by
    field_simp
  rw [hc]

/-! ### Claim C6: containment in the canvas -/

/-- C6 (amended with the row-major ordering of C4): for positive spacing and a
valid, row-major-ordered explicit rule, every image's position plus its
rescaled size stays inside the returned canvas, despite the per-step
truncations of the accumulated coordinates and of the canvas size. -/
theorem c6_containment (r : ExplicitRule) (imgs : List Img) (S : Nat)
    (hv : ValidExplicit r imgs) (hS : 0 < S) (hord : RowMajorOrdered r.configs) :
    ∃ L W H I, calculate_layout (.dict r) imgs S = .ok (L, W, H, I) ∧
      L.length = imgs.length ∧
      ∀ i, i < imgs.length →
        (L.getD i (0, 0)).1 + ((I.getD i (Img.orig 0 0)).size).1 ≤ W ∧
        (L.getD i (0, 0)).2 + ((I.getD i (Img.orig 0 0)).size).2 ≤ H := by
  have heq := explicitLayout_eq r imgs S hv
  obtain ⟨hlen, hb, hcellnd, hwpos⟩ := hv
  have hcw : (specCW S r (imgs.map Img.size)).length = r.cols :=
    specCW_length S r (imgs.map Img.size) (fun cfg hc => (hb cfg hc).2.2.2.2)
  have hrh1 : (specRH1 S r (imgs.map Img.size)).length = r.rows :=
    specRH1_length S r (imgs.map Img.size) (fun cfg hc => (hb cfg hc).2.2.2.2)
  have hrh : (specRH S r (imgs.map Img.size)).length = r.rows :=
    specRH_length S r (imgs.map Img.size) (fun cfg hc => (hb cfg hc).2.2.2.2)
  have hL : scanRows r.configs S (specCW S r (imgs.map Img.size)) S 0
      (specRH S r (imgs.map Img.size))
      = r.configs.map (fun cfg =>
          (Xpos S (specCW S r (imgs.map Img.size)) (cfg.col - 1),
           Ypos S (specRH S r (imgs.map Img.size)) (cfg.row - 1))) := by
    rw [scanRows_as_cellList, hcw, hrh,
      cellList_eq_configs_map r.rows r.cols r.configs hb hord, List.map_map]
    apply List.map_congr_left
    intro cfg _
    rfl
  refine ⟨_, _, _, _, heq, ?_, ?_⟩
  · rw [hL, List.length_map, hlen]
  · intro i hi
    have hic : i < r.configs.length := by omega
    have hisz : i < (imgs.map Img.size).length := by simpa using hi
    have hizip : i < (r.configs.zip (imgs.map Img.size)).length := by
      rw [List.length_zip]
      omega
    have hspecsz : i < (specSizes S r (imgs.map Img.size)).length := by
      unfold specSizes
      rw [List.length_map]
      exact hizip
    -- the i-th placement
    have hLi : ((scanRows r.configs S (specCW S r (imgs.map Img.size)) S 0
        (specRH S r (imgs.map Img.size))).getD i (0, 0))
        = (Xpos S (specCW S r (imgs.map Img.size)) (r.configs[i].col - 1),
           Ypos S (specRH S r (imgs.map Img.size)) (r.configs[i].row - 1)) := by
      rw [hL, List.getD_eq_getElem _ _ (by rw [List.length_map]; exact hic), List.getElem_map]
    -- the i-th final image
    have hIi : (((specSizes S r (imgs.map Img.size)).map
        (fun wh => Img.resized wh.1 wh.2)).getD i (Img.orig 0 0))
        = Img.resized ((specSizes S r (imgs.map Img.size))[i]).1
            ((specSizes S r (imgs.map Img.size))[i]).2 := by
      rw [List.getD_eq_getElem _ _ (by rw [List.length_map]; exact hspecsz), List.getElem_map]
    have hsz_i : (specSizes S r (imgs.map Img.size))[i]
        = specNewSize S (specCW S r (imgs.map Img.size)) r.configs[i] (imgs[i]).size := by
      unfold specSizes
      rw [List.getElem_map, List.getElem_zip, List.getElem_map]
    obtain ⟨f1, f2, f3, f4, f5⟩ := hb r.configs[i] (List.getElem_mem hic)
    have hwne : ((imgs[i]).size).1 ≠ 0 :=
      Nat.pos_iff_ne_zero.mp (hwpos imgs[i] (List.getElem_mem hi))
    rw [hLi, hIi, hsz_i]
    constructor
    · -- width
      simp only [Img.size_resized]
      rw [specNewSize_fst _ _ _ _ hwne]
      have hx := xpos_add_width_le S (specCW S r (imgs.map Img.size)) r.configs[i]
        (specCW_nonneg S r (imgs.map Img.size)) f4 (by omega)
      rwa [hcw] at hx
    · -- height
      simp only [Img.size_resized]
      have hnh : (specNewSize S (specCW S r (imgs.map Img.size)) r.configs[i]
          (imgs[i]).size).2
          ≤ (specRH S r (imgs.map Img.size)).getD (r.configs[i].row - 1) 0 := by
        unfold specRH
        have hpair : ((r.configs.zip (imgs.map Img.size))[i])
            = (r.configs[i], (imgs[i]).size) := by
          rw [List.getElem_zip, List.getElem_map]
        have hg := specPass2RH_ge_newheight S (specCW S r (imgs.map Img.size))
          (r.configs.zip (imgs.map Img.size)) (specRH1 S r (imgs.map Img.size)) i hizip
          (by rw [hpair]; simpa [hrh1] using (by omega : r.configs[i].row - 1 < r.rows))
        rwa [hpair] at hg
      have hy := ypos_add_height_le S (specRH S r (imgs.map Img.size))
        (r.configs[i].row - 1)
        ((specNewSize S (specCW S r (imgs.map Img.size)) r.configs[i] (imgs[i]).size).2)
        (by omega) hnh
      rwa [hrh] at hy

/-- C6 counterexample: a valid rule (distinct cells, spans in range) whose
configs are not in row-major order: image 1 spans both columns and is pasted
at `layout[1] = (27, 1)` with rescaled width 126, while the canvas width is
128: `27 + 126 = 153 > 128` — the placement overflows the right edge. -/
theorem c6_counterexample :
    calculate_layout (.dict ⟨1, 2, [⟨1, 2, 1⟩, ⟨1, 1, 2⟩]⟩)
        [Img.orig 100 10, Img.orig 50 10] 1 =
      .ok ([(1, 1), (27, 1)], 128, 27, [Img.resized 100 10, Img.resized 126 25]) ∧
    27 + 126 > 128 := by
  constructor
  · simp [calculate_layout, explicitLayout, pass1, pass1Step, pass2, pass2Step,
      listGet, listGetRange, sliceAssign, pySlice, listUpd, listSetV, pyIndex,
      pyIntNat, pyInt, scanRows, scanCols, cellClaimed, Img.size]
    norm_num
    decide
  · decide

/-- Witness for C6 at a row-major-ordered valid rule with positive spacing. -/
theorem c6_containment_witness :
    ∃ L W H I, calculate_layout (.dict ⟨1, 2, [⟨1, 1, 1⟩, ⟨1, 2, 1⟩]⟩)
        [Img.orig 4 6, Img.orig 10 8] 2 = .ok (L, W, H, I) ∧
      L.length = 2 ∧
      ∀ i, i < 2 →
        (L.getD i (0, 0)).1 + ((I.getD i (Img.orig 0 0)).size).1 ≤ W ∧
        (L.getD i (0, 0)).2 + ((I.getD i (Img.orig 0 0)).size).2 ≤ H :=
  c6_containment ⟨1, 2, [⟨1, 1, 1⟩, ⟨1, 2, 1⟩]⟩ [Img.orig 4 6, Img.orig 10 8] 2
    (by unfold ValidExplicit; decide) (by decide) (by unfold RowMajorOrdered; decide)
